import Mathlib

/-!
Verification of the bytesophos RAG system against its design specification.

The development shallowly embeds the parts of the repository that the
checked properties speak about:

* the PostgreSQL schema of migration 0002__user_and_role_schema.sql
  (tables, declared constraints, the cascade behaviour of the declared
  foreign keys, the `derive_repo_name` function and its trigger, and the
  ivfflat vector index declaration);
* the frontend API client modules (repos.ts, conversations.ts) and the
  ChatPage / QueryForm readiness gate, modelled over an explicit
  representation of loosely typed JavaScript values;
* the ChatPage context cache over localStorage, together with an
  executable model of the JSON.stringify / JSON.parse primitives it uses.

Modelling conventions: uuid values are natural numbers, timestamps are
integers, double precision and vector components are integers (no
floating point reasoning is attempted), text is either `String` or a
list of characters (`Str`) where character level reasoning is needed.
-/

set_option maxRecDepth 16384

/-- Character lists stand for the text values manipulated by the code. -/
abbrev Str := List Char

/-- Uuid columns are modelled by natural numbers; only freshness and
equality of uuids matter to the checked properties. -/
abbrev Uuid := Nat

/- ### JSON values

`jsonb` columns and the values handled by the browser primitives
JSON.stringify / JSON.parse are modelled by this inductive. Numbers are
modelled by integers: the properties proved here never depend on
non-integral numeric values. -/

inductive Json where
  | null : Json
  | bool (b : Bool) : Json
  | num (n : Int) : Json
  | str (s : Str) : Json
  | arr (xs : List Json) : Json
  | obj (fields : List (Str × Json)) : Json

/-- The empty JSON object, the default of the `jsonb` columns. -/
def Json.emptyObj : Json := Json.obj []

/- ### Schema of migration 0002__user_and_role_schema.sql -/

/-- Table `users`. -/
structure UserRow where
  id : Uuid
  email : String
  name : Option String
  display_name : Option String
  password_hash : Option String
  last_login_at : Option Int
  created_at : Int
  metadata : Json

/-- Table `repos`. -/
structure RepoRow where
  id : String
  owner_user_id : Option Uuid
  source_type : String
  source_uri : Option String
  storage_path : String
  name : String
  title : Option String
  is_shared : Bool
  created_at : Int
  last_indexed_at : Option Int
  metadata : Json

/-- Table `conversations`. -/
structure ConversationRow where
  id : Uuid
  repo_id : String
  user_id : Option Uuid
  title : Option String
  type : Option String
  source : Option String
  is_archived : Bool
  is_favorite : Bool
  last_interacted_at : Option Int
  message_count : Int
  metadata : Json
  created_at : Int

/-- Table `messages`. -/
structure MessageRow where
  id : Uuid
  conversation_id : Option Uuid
  user_id : Option Uuid
  content : String
  role : String
  created_at : Int
  metadata : Json

/-- Table `documents`. -/
structure DocumentRow where
  id : Uuid
  repo_id : String
  title : Option String
  description : Option String
  source_type : Option String
  source_uri : Option String
  version : Int
  checksum : Option String
  ingestion_status : String
  ingested_at : Option Int
  created_at : Int
  metadata : Json

/-- Table `document_chunks`. The `vector(1536)` column is a list of
integer components whose length the type constraint fixes; `tsvector`
is kept as its source text. -/
structure DocumentChunkRow where
  id : Uuid
  document_id : Option Uuid
  chunk_text : String
  chunk_hash : String
  chunk_index : Int
  start_offset : Option Int
  end_offset : Option Int
  search_vector : Option String
  embedding : Option (List Int)
  embedding_model : Option String
  embedding_created_at : Option Int
  embedding_metadata : Json
  token_count : Option Int
  created_at : Int
  metadata : Json

/-- Table `rag_queries`. -/
structure RagQueryRow where
  id : Uuid
  conversation_id : Option Uuid
  user_id : Option Uuid
  query_text : String
  response_text : Option String
  response_metadata : Option Json
  created_at : Int

/-- Table `retrieved_chunks`. `score double precision` is modelled by an
integer score. -/
structure RetrievedChunkRow where
  id : Uuid
  rag_query_id : Option Uuid
  document_chunk_id : Option Uuid
  score : Option Int
  rank : Option Int
  used_in_prompt : Bool
  created_at : Int

/-- A database state: the rows of every table of the migration. -/
structure Database where
  users : List UserRow
  repos : List RepoRow
  conversations : List ConversationRow
  messages : List MessageRow
  documents : List DocumentRow
  document_chunks : List DocumentChunkRow
  rag_queries : List RagQueryRow
  retrieved_chunks : List RetrievedChunkRow

/-- Dimensionality fixed by the column type `vector(1536)`. -/
def embeddingDimension : Nat := 1536

/-- Does an optional foreign key value point into the given id list
(or is it absent)? -/
def fkOk (o : Option Uuid) (ids : List Uuid) : Prop :=
  ∀ i, o = some i → i ∈ ids

instance (o : Option Uuid) (ids : List Uuid) : Decidable (fkOk o ids) := by
  unfold fkOk
  cases o with
  | none => exact isTrue (by intro i h; cases h)
  | some j =>
      by_cases hj : j ∈ ids
      · exact isTrue (by intro i h; cases h; exact hj)
      · exact isFalse (by intro h; exact hj (h j rfl))

/-- The `vector(1536)` column type constraint on a chunk row. -/
def embeddingDimOk (c : DocumentChunkRow) : Prop :=
  ∀ v, c.embedding = some v → v.length = embeddingDimension

instance (c : DocumentChunkRow) : Decidable (embeddingDimOk c) := by
  unfold embeddingDimOk
  rcases hv : c.embedding with _ | v0
  · exact isTrue (by intro v h; cases h)
  · by_cases hl : v0.length = embeddingDimension
    · exact isTrue (by intro v h; cases h; exact hl)
    · exact isFalse (by intro h; exact hl (h v0 rfl))

/-- The CHECK constraint of `repos.source_type`. -/
def sourceTypeOk (r : RepoRow) : Prop :=
  r.source_type = "git" ∨ r.source_type = "upload"

/-- The CHECK constraint of `messages.role`. -/
def roleOk (m : MessageRow) : Prop :=
  m.role = "user" ∨ m.role = "assistant" ∨ m.role = "system"

instance (r : RepoRow) : Decidable (sourceTypeOk r) := by
  unfold sourceTypeOk; infer_instance

instance (m : MessageRow) : Decidable (roleOk m) := by
  unfold roleOk; infer_instance

/-- Exactly the constraints the migration declares: primary keys, the
UNIQUE index on users.email, the UNIQUE index ux_repos_owner_name (null
owners do not conflict, as in PostgreSQL), the CHECK constraints, the
foreign keys, and the `vector(1536)` dimensionality.  No other
uniqueness is declared anywhere in the migration. -/
def databaseValid (db : Database) : Prop :=
  (db.users.map UserRow.id).Nodup ∧
  (db.users.map UserRow.email).Nodup ∧
  (db.repos.map RepoRow.id).Nodup ∧
  (∀ r1 ∈ db.repos, ∀ r2 ∈ db.repos,
      r1.owner_user_id ≠ none → r1.owner_user_id = r2.owner_user_id →
      r1.name = r2.name → r1.id = r2.id) ∧
  (∀ r ∈ db.repos, sourceTypeOk r ∧ fkOk r.owner_user_id (db.users.map UserRow.id)) ∧
  (db.conversations.map ConversationRow.id).Nodup ∧
  (∀ c ∈ db.conversations, c.repo_id ∈ db.repos.map RepoRow.id ∧
      fkOk c.user_id (db.users.map UserRow.id)) ∧
  (db.messages.map MessageRow.id).Nodup ∧
  (∀ m ∈ db.messages, roleOk m ∧
      fkOk m.conversation_id (db.conversations.map ConversationRow.id) ∧
      fkOk m.user_id (db.users.map UserRow.id)) ∧
  (db.documents.map DocumentRow.id).Nodup ∧
  (∀ d ∈ db.documents, d.repo_id ∈ db.repos.map RepoRow.id) ∧
  (db.document_chunks.map DocumentChunkRow.id).Nodup ∧
  (∀ c ∈ db.document_chunks,
      fkOk c.document_id (db.documents.map DocumentRow.id) ∧ embeddingDimOk c) ∧
  (db.rag_queries.map RagQueryRow.id).Nodup ∧
  (∀ q ∈ db.rag_queries,
      fkOk q.conversation_id (db.conversations.map ConversationRow.id) ∧
      fkOk q.user_id (db.users.map UserRow.id)) ∧
  (db.retrieved_chunks.map RetrievedChunkRow.id).Nodup ∧
  (∀ r ∈ db.retrieved_chunks,
      fkOk r.rag_query_id (db.rag_queries.map RagQueryRow.id) ∧
      fkOk r.document_chunk_id (db.document_chunks.map DocumentChunkRow.id))

instance (db : Database) : Decidable (databaseValid db) := by
  unfold databaseValid; infer_instance

/-- The uniqueness the specification asserts for chunk rows: within one
document, no two distinct rows share a chunk_index, and none share a
chunk_hash.  Distinctness of rows is expressed through the primary key. -/
def chunkPairsUnique (db : Database) : Prop :=
  ∀ c1 ∈ db.document_chunks, ∀ c2 ∈ db.document_chunks, ∀ d : Uuid,
    c1.document_id = some d → c2.document_id = some d → c1.id ≠ c2.id →
    c1.chunk_index ≠ c2.chunk_index ∧ c1.chunk_hash ≠ c2.chunk_hash

/- ### Vector index declaration (idx_document_chunks_embedding) -/

/-- The pgvector operator classes an ivfflat index can be declared with. -/
inductive VectorOps where
  | l2 : VectorOps
  | innerProduct : VectorOps
  | cosine : VectorOps
  deriving DecidableEq

/-- An ivfflat index declaration. -/
structure IvfflatIndexDef where
  tableName : String
  columnName : String
  ops : VectorOps
  lists : Nat

/-- CREATE INDEX idx_document_chunks_embedding ON document_chunks USING
ivfflat(embedding vector_l2_ops) WITH (lists = 100). -/
def idx_document_chunks_embedding : IvfflatIndexDef :=
  { tableName := "document_chunks"
    columnName := "embedding"
    ops := VectorOps.l2
    lists := 100 }

/-- Squared Euclidean distance between two vectors, the comparison
function of the `vector_l2_ops` operator class (squaring preserves the
ordering the index uses). -/
def l2DistanceSq (u v : List Int) : Int :=
  (List.zipWith (fun a b => (a - b) * (a - b)) u v).sum

/-- Whether an operator class compares vectors by Euclidean distance. -/
def opsIsEuclidean : VectorOps → Bool
  | VectorOps.l2 => true
  | VectorOps.innerProduct => false
  | VectorOps.cosine => false

/- ### Query recorder (spec-modelled)

The backend that writes retrieved_chunks rows is not among the sources;
only its schema is. -/

/-- A ranked retrieval candidate handed to the recorder. -/
structure RankedCandidate where
  chunk_id : Uuid
  score : Int

/-- Helper for `recordRetrieved`: emits a row for the candidate at
0-based position `i` of the final ordering. -/
def recordRetrievedAux (qid : Uuid) (topK : Nat) :
    Nat → List RankedCandidate → List RetrievedChunkRow
  | _, [] => []
  | i, c :: rest =>
      { id := i
        rag_query_id := some qid
        document_chunk_id := some c.chunk_id
        score := some c.score
        rank := some (Int.ofNat (i + 1))
        used_in_prompt := decide (i < topK)
        created_at := 0 } :: recordRetrievedAux qid topK (i + 1) rest

/-- Modelled from the spec: the Query Recorder (backend code absent from
the sources) persists one retrieved_chunks row per returned candidate,
with rank the 1-based position in the final ordering and used_in_prompt
reflecting the top-K truncation of the ranked list. -/
def recordRetrieved (qid : Uuid) (topK : Nat) (ranked : List RankedCandidate) :
    List RetrievedChunkRow :=
  recordRetrievedAux qid topK 0 ranked

/- ### Cascade behaviour of DELETE FROM repos -/

/-- Does an optional foreign key point into the given id list? -/
def optMem (o : Option Uuid) (ids : List Uuid) : Bool :=
  match o with
  | none => false
  | some i => decide (i ∈ ids)

/- Deleting a repository row, following exactly the referential actions
the migration declares: documents and conversations reference repos ON
DELETE CASCADE; document_chunks reference documents ON DELETE CASCADE;
messages and rag_queries reference conversations ON DELETE CASCADE;
retrieved_chunks reference rag_queries ON DELETE CASCADE.  The foreign
key retrieved_chunks.document_chunk_id declares no ON DELETE action, so
the whole delete is rejected (none) when an audit row that itself
survives still references a chunk row being removed. -/

/-- Ids of the documents removed by deleting the repository. -/
def deadDocIds (db : Database) (rid : String) : List Uuid :=
  (db.documents.filter (fun d => decide (d.repo_id = rid))).map DocumentRow.id

/-- Ids of the chunk rows removed through the documents cascade. -/
def deadChunkIds (db : Database) (rid : String) : List Uuid :=
  (db.document_chunks.filter
    (fun c => optMem c.document_id (deadDocIds db rid))).map DocumentChunkRow.id

/-- Ids of the conversations removed by deleting the repository. -/
def deadConvIds (db : Database) (rid : String) : List Uuid :=
  (db.conversations.filter (fun c => decide (c.repo_id = rid))).map
    ConversationRow.id

/-- Ids of the queries removed through the conversations cascade. -/
def deadQueryIds (db : Database) (rid : String) : List Uuid :=
  (db.rag_queries.filter
    (fun q => optMem q.conversation_id (deadConvIds db rid))).map RagQueryRow.id

/-- The audit rows surviving the rag_queries cascade. -/
def retrievedLeft (db : Database) (rid : String) : List RetrievedChunkRow :=
  db.retrieved_chunks.filter
    (fun r => ! optMem r.rag_query_id (deadQueryIds db rid))

def deleteRepoCascade (db : Database) (rid : String) : Option Database :=
  if (retrievedLeft db rid).any
      (fun r => optMem r.document_chunk_id (deadChunkIds db rid)) then
    none
  else
    some
      { users := db.users
        repos := db.repos.filter (fun r => decide (r.id ≠ rid))
        conversations := db.conversations.filter (fun c => decide (c.repo_id ≠ rid))
        messages :=
          db.messages.filter (fun m => ! optMem m.conversation_id (deadConvIds db rid))
        documents := db.documents.filter (fun d => decide (d.repo_id ≠ rid))
        document_chunks :=
          db.document_chunks.filter
            (fun c => ! optMem c.document_id (deadDocIds db rid))
        rag_queries :=
          db.rag_queries.filter
            (fun q => ! optMem q.conversation_id (deadConvIds db rid))
        retrieved_chunks := retrievedLeft db rid }

/-- What the cascading delete must scrub: no repo row with the deleted
id, none of its documents, none of the chunks of those documents, none
of its conversations, and no query (or retrieved-chunk audit row)
recorded under those conversations. -/
def cascadeScrubbed (db db2 : Database) (rid : String) : Prop :=
  (∀ r ∈ db2.repos, r.id ≠ rid) ∧
  (∀ d ∈ db2.documents, d.repo_id ≠ rid) ∧
  (∀ c ∈ db2.conversations, c.repo_id ≠ rid) ∧
  (∀ ch ∈ db2.document_chunks, ∀ d ∈ db.documents,
      d.repo_id = rid → ch.document_id ≠ some d.id) ∧
  (∀ q ∈ db2.rag_queries, ∀ c ∈ db.conversations,
      c.repo_id = rid → q.conversation_id ≠ some c.id) ∧
  (∀ rr ∈ db2.retrieved_chunks, ∀ q ∈ db.rag_queries, ∀ c ∈ db.conversations,
      c.repo_id = rid → q.conversation_id = some c.id → rr.rag_query_id ≠ some q.id)

/- ### derive_repo_name and its trigger (migration 0002, lines 34 to 79)

The PL/pgSQL function manipulates text through btrim, lower and three
POSIX regular expressions; the regular expressions are modelled by
direct recursion with exactly their matching semantics on the inputs the
function feeds them (leftmost-longest overall match, shortest capture
for the lazy group). -/

/-- btrim(text) with the default character set: strip spaces at both ends. -/
def btrimSp (s : Str) : Str :=
  ((s.dropWhile (fun c => c == ' ')).reverse.dropWhile (fun c => c == ' ')).reverse

/-- lower(text); ASCII case folding. -/
def asciiLower (s : Str) : Str :=
  s.map Char.toLower

/-- Does the pattern occur at the head of the text? -/
def leadsWith : Str → Str → Bool
  | [], _ => true
  | _ :: _, [] => false
  | p :: pt, c :: ct => p == c && leadsWith pt ct

/-- Does the pattern occur anywhere in the text? -/
def containsSeq (pat : Str) : Str → Bool
  | [] => leadsWith pat []
  | c :: rest => leadsWith pat (c :: rest) || containsSeq pat rest

/-- Does the text end with the given suffix? -/
def endsWithSeq (suf s : Str) : Bool :=
  leadsWith suf.reverse s.reverse

/-- The literal matched case-insensitively by the test on _source_uri. -/
def githubComChars : Str := "github.com".data

/-- Does the text end in a slash? -/
def endsSlash (t : Str) : Bool :=
  match t.getLast? with
  | some c => c == '/'
  | none => false

/-- Drop one trailing slash if present (the optional final slash of the
first regular expression). -/
def stripTrailSlash (t : Str) : Str :=
  if endsSlash t then t.dropLast else t

/-- True when the text is free of slashes. -/
def noSlash (t : Str) : Bool :=
  t.all (fun c => ! (c == '/'))

/-- Can the suffix standing after a separator complete a match of the
first regular expression: a nonempty slash-free segment, an optional
dot-git, an optional final slash. -/
def validRest (t : Str) : Bool :=
  (! (stripTrailSlash t).isEmpty) && noSlash (stripTrailSlash t)

/-- The text captured by the lazy group out of a matching suffix: the
segment without its trailing slash, and without a final dot-git when one
can be split off leaving the capture nonempty (the lazy group prefers
the shortest capture). -/
def captureOf (t : Str) : Str :=
  let core := stripTrailSlash t
  if endsWithSeq ".git".data core && decide (4 < core.length) then
    core.take (core.length - 4)
  else
    core

/-- Scan for the rightmost separator (slash or colon) whose suffix
completes a match; the leading greedy dot-star of the pattern makes the
rightmost such separator the one the match uses. -/
def ghScan : Str → Option Str
  | [] => none
  | c :: t =>
      match ghScan t with
      | some cap => some cap
      | none =>
          if (c == '/' || c == ':') && validRest t then some (captureOf t)
          else none

/-- regexp_replace of the whole uri by the captured last segment; when
the pattern does not match, regexp_replace returns its input unchanged. -/
def githubBase (s : Str) : Str :=
  (ghScan s).getD s

/-- regexp_replace(p, dot-star-slash, empty): everything up to and
including the last slash is removed. -/
def basenameOf (p : Str) : Str :=
  (p.reverse.takeWhile (fun c => ! (c == '/'))).reverse

/-- Case-insensitive archive extension stripping, longest alternative
first, anchored at the end of the text. -/
def stripArchiveExt (b : Str) : Str :=
  let low := asciiLower b
  if endsWithSeq ".tar.bz2".data low then b.take (b.length - 8)
  else if endsWithSeq ".tar.gz".data low then b.take (b.length - 7)
  else if endsWithSeq ".zip".data low then b.take (b.length - 4)
  else if endsWithSeq ".tar".data low then b.take (b.length - 4)
  else if endsWithSeq ".tgz".data low then b.take (b.length - 4)
  else b

/-- Function derive_repo_name(_source_uri, _storage_path, _fallback):
coalesce null and blank arguments to empty, take the lower-cased last
segment of a github uri, else the lower-cased base name of the storage
path stripped of archive extensions, else the lower-cased fallback, else
the constant repo. -/
def derive_repo_name (_source_uri _storage_path _fallback : Option Str) : Str :=
  let s := btrimSp (_source_uri.getD [])
  let p := btrimSp (_storage_path.getD [])
  if containsSeq githubComChars (asciiLower s) then
    asciiLower (githubBase s)
  else
    let base := stripArchiveExt (basenameOf p)
    if (! p.isEmpty) && (! base.isEmpty) then
      asciiLower base
    else
      let fb := btrimSp (_fallback.getD [])
      asciiLower (if fb.isEmpty then "repo".data else fb)

/-- Is a proposed name NULL or blank, the condition under which the
trigger derives a name? -/
def nameIsBlank (name : Option Str) : Bool :=
  match name with
  | none => true
  | some n => (btrimSp n).isEmpty

/-- Trigger function repos_before_ins_upd_fill_name: on insert or
update, a NULL or blank NEW.name is replaced by
derive_repo_name(NEW.source_uri, NEW.storage_path, NEW.id); the result
is the name stored on the row. -/
def repos_before_ins_upd_fill_name
    (name _source_uri _storage_path : Option Str) (id : Str) : Str :=
  if nameIsBlank name then derive_repo_name _source_uri _storage_path (some id)
  else name.getD []

/- ### JavaScript values

The frontend normalizers branch on JavaScript truthiness and nullishness
of loosely typed values; this inductive captures the value shapes those
branches distinguish (numbers as integers; NaN does not occur in the
modelled paths). -/

inductive JsVal where
  | undef : JsVal
  | null : JsVal
  | bool (b : Bool) : JsVal
  | num (n : Int) : JsVal
  | str (s : String) : JsVal
  deriving DecidableEq

/-- JavaScript falsiness: undefined, null, false, 0 and the empty
string are falsy. -/
def jsFalsy : JsVal → Bool
  | JsVal.undef => true
  | JsVal.null => true
  | JsVal.bool b => ! b
  | JsVal.num n => decide (n = 0)
  | JsVal.str s => s.isEmpty

/-- The nullish coalescing operator: keep the left value unless it is
null or undefined. -/
def nco (a b : JsVal) : JsVal :=
  match a with
  | JsVal.undef => b
  | JsVal.null => b
  | _ => a

/-- The String() conversion applied to the resolved id values. -/
def jsToString : JsVal → String
  | JsVal.undef => "undefined"
  | JsVal.null => "null"
  | JsVal.bool true => "true"
  | JsVal.bool false => "false"
  | JsVal.num n => toString n
  | JsVal.str s => s

/- ### conversations.ts: normalizeConvo and listConversations -/

/-- The optional first_message sub-record of a raw conversation. -/
structure RawFirstMessage where
  content : JsVal
  deriving DecidableEq

/-- A loosely typed conversation record as the API may return it: every
field name the normalizer probes; absent fields hold undefined.  A
first_message that is missing or not an object is `none`. -/
structure RawConvo where
  id : JsVal
  conversation_id : JsVal
  conversationId : JsVal
  pk : JsVal
  repo_id : JsVal
  repoId : JsVal
  repository_id : JsVal
  title : JsVal
  name : JsVal
  latest_question : JsVal
  first_message : Option RawFirstMessage
  created_at : JsVal
  createdAt : JsVal
  updated_at : JsVal
  updatedAt : JsVal
  deriving DecidableEq

/-- The Conversation shape produced by the normalizer (api/types.ts);
fields other than the two mandatory strings keep their raw values. -/
structure Conversation where
  id : String
  repo_id : String
  title : JsVal
  created_at : JsVal
  updated_at : JsVal
  latest_question : JsVal
  deriving DecidableEq

/-- The id alternatives chain: raw id, conversation_id, conversationId,
pk, null — optional chaining on a missing record gives undefined at
every probe, so the chain resolves to null. -/
def convoIdChain (raw : Option RawConvo) : JsVal :=
  match raw with
  | none => JsVal.null
  | some r => nco (nco (nco (nco r.id r.conversation_id) r.conversationId) r.pk) JsVal.null

/-- The repository alternatives chain: repo_id, repoId, repository_id,
null. -/
def convoRepoChain (raw : Option RawConvo) : JsVal :=
  match raw with
  | none => JsVal.null
  | some r => nco (nco (nco r.repo_id r.repoId) r.repository_id) JsVal.null

/-- The content of an optional first message, through optional chaining. -/
def firstMsgContent (r : RawConvo) : JsVal :=
  match r.first_message with
  | none => JsVal.undef
  | some m => m.content

/-- normalizeConvo (conversations.ts): resolve id and repo_id through
their alternative field names, drop the record when either resolved
value is falsy, otherwise build the Conversation with the String() forms
of the resolved values. -/
def normalizeConvo (raw : Option RawConvo) : Option Conversation :=
  let id := convoIdChain raw
  let repo := convoRepoChain raw
  if jsFalsy id || jsFalsy repo then none
  else
    some
      { id := jsToString id
        repo_id := jsToString repo
        title :=
          match raw with
          | none => JsVal.null
          | some r =>
              nco (nco (nco (nco r.title r.name) r.latest_question) (firstMsgContent r))
                JsVal.null
        created_at :=
          match raw with
          | none => JsVal.null
          | some r => nco (nco r.created_at r.createdAt) JsVal.null
        updated_at :=
          match raw with
          | none => JsVal.null
          | some r => nco (nco r.updated_at r.updatedAt) JsVal.null
        latest_question :=
          match raw with
          | none => JsVal.null
          | some r => nco r.latest_question JsVal.null }

/-- listConversations (conversations.ts): map the rows through
normalizeConvo and keep the truthy results (filter Boolean drops exactly
the nulls, normalized objects being always truthy). -/
def listConversations (data : Option (List (Option RawConvo))) : List Conversation :=
  ((data.getD []).map normalizeConvo).reduceOption

/- ### repos.ts: deleteRepo and getRepoBriefs -/

/-- Body of a DELETE response as repos.ts types it. -/
structure DeleteRepoResp where
  status : String
  repoId : String
  deriving DecidableEq

/-- deleteRepo (repos.ts): report success exactly when the response body
carries status deleted; a missing body reads as failure through optional
chaining. -/
def deleteRepo (data : Option DeleteRepoResp) : Bool :=
  match data with
  | some d => d.status == "deleted"
  | none => false

/-- Modelled from the spec: the backend DELETE handler for a repository
is not among the sources; per the specification the operation is
idempotent — it removes the repository if present and answers with
status deleted whether or not the repository still existed (in-flight
ingestion cancellation is outside this model). -/
def serverDeleteRepo (repos : List String) (rid : String) :
    List String × DeleteRepoResp :=
  (repos.filter (fun r => decide (r ≠ rid)), { status := "deleted", repoId := rid })

/-- A failed HTTP request: the status of its response when one exists
(a network failure carries none). -/
structure HttpFailure where
  status : Option Nat
  deriving DecidableEq

/-- A repository brief as repos.ts types it. -/
structure RepoBrief where
  id : String
  label : String
  source_type : Option String
  deriving DecidableEq

/-- JavaScript object insertion: replace the value in place when the key
exists, append otherwise (property order is insertion order). -/
def recordSet [DecidableEq κ] : List (κ × α) → κ → α → List (κ × α)
  | [], k, v => [(k, v)]
  | (k0, v0) :: t, k, v =>
      if k0 = k then (k0, v) :: t else (k0, v0) :: recordSet t k v

/-- JavaScript property read on an object built by `recordSet`. -/
def recordGet [DecidableEq κ] : List (κ × α) → κ → Option α
  | [], _ => none
  | (k0, v0) :: t, k => if k0 = k then some v0 else recordGet t k

/-- getRepoNames (repos.ts): pass the failure through, coalesce a
missing body to the empty record. -/
def getRepoNames (data : Except HttpFailure (Option (List (String × String)))) :
    Except HttpFailure (List (String × String)) :=
  match data with
  | Except.ok d => Except.ok (d.getD [])
  | Except.error e => Except.error e

/-- getRepoBriefs (repos.ts): on success build the record keyed by each
brief id; on a failure whose status is not 404 rethrow it; on 404 fall
back to getRepoNames and build briefs whose label is the listed name. -/
def getRepoBriefs
    (briefsResp : Except HttpFailure (Option (List RepoBrief)))
    (namesResp : Except HttpFailure (Option (List (String × String)))) :
    Except HttpFailure (List (String × RepoBrief)) :=
  match briefsResp with
  | Except.ok data =>
      Except.ok ((data.getD []).foldl (fun m r => recordSet m r.id r) [])
  | Except.error err =>
      if err.status ≠ some 404 then Except.error err
      else
        match getRepoNames namesResp with
        | Except.error e2 => Except.error e2
        | Except.ok names =>
            Except.ok
              (names.foldl
                (fun m p => recordSet m p.1 { id := p.1, label := p.2, source_type := none })
                [])

/- ### ChatPage readiness gate (pages/ChatPage.tsx)

The page keeps repoId, conversationId, a cached repository status, a
manual-ready flag and the loaded chat history; handleAsk sends the
answer request only after its readiness gate.  The reachable interface
states are modelled by a small transition system whose events mirror the
component's handlers and effects; the backend is a static world giving
each repository its status, each conversation its repository and
assistant-history flag, and each repository whether an answer for it
already exists. -/

/-- A status response: the status label and the numeric document count
(Number of stats.documents, absent coalescing to 0). -/
structure RepoStatusResp where
  status : String
  documents : Int
  deriving DecidableEq

/-- The readiness test ChatPage applies to a status response: the
lower-cased label is indexed or done, or the document count is
positive. -/
def statusReady (s : RepoStatusResp) : Bool :=
  decide (asciiLower s.status.data = "indexed".data) ||
  decide (asciiLower s.status.data = "done".data) ||
  decide (0 < s.documents)

/-- The backend world the page talks to, static over one interaction:
per-repository status, per-conversation repository and assistant
history, and whether some prior answer exists for a repository. -/
structure ChatWorld where
  statusOf : String → RepoStatusResp
  convRepo : String → Option String
  convHasAssistant : String → Bool
  answeredRepo : String → Bool

/-- The page state the gate depends on.  pendingStatus holds the
repositories with a status request of the repoId-keyed effect still in
flight: the effect installs no cancellation flag and no staleness
guard, so every issued request eventually applies its response to
whatever state is then current.  fetchedEver and extraAnswered are
history records: every repository a status request was ever issued
for, and the repositories successfully asked during this session. -/
structure ChatUIState where
  repoId : Option String
  conversationId : Option String
  manuallyReady : Bool
  repoStatus : Option RepoStatusResp
  hasAssistant : Bool
  pendingStatus : List String
  fetchedEver : List String
  extraAnswered : List String

/-- The initial page state. -/
def initChat : ChatUIState :=
  { repoId := none
    conversationId := none
    manuallyReady := false
    repoStatus := none
    hasAssistant := false
    pendingStatus := []
    fetchedEver := []
    extraAnswered := [] }

/-- isRepoReady (ChatPage.tsx): the manual flag, an assistant message in
the loaded history, or a cached ready status. -/
def isRepoReady (st : ChatUIState) : Bool :=
  st.manuallyReady || st.hasAssistant ||
    (match st.repoStatus with
     | some s => statusReady s
     | none => false)

/-- The status a successful ask installs when none is cached. -/
def defaultIndexedStatus : RepoStatusResp :=
  { status := "indexed", documents := 1 }

/-- State changes of a successful ask: the answer is appended to the
history, the manual-ready flag raised, a default status installed when
none is cached, and the repository recorded as answered. -/
def askSuccess (st : ChatUIState) (r : String) : ChatUIState :=
  { st with
    hasAssistant := true
    manuallyReady := true
    repoStatus := some (st.repoStatus.getD defaultIndexedStatus)
    extraAnswered := r :: st.extraAnswered }

/-- The synchronous part of the repoId-keyed status effect
(ChatPage.tsx): the manual flag and the cached status are cleared, and
when the new repoId is truthy a status request for it is issued.  The
effect ties no cancellation or staleness guard to the request, so it
is recorded as pending and its response may arrive at any later
state. -/
def statusEffect (st : ChatUIState) : ChatUIState :=
  match st.repoId with
  | none => { st with manuallyReady := false, repoStatus := none }
  | some r =>
      if r = "" then { st with manuallyReady := false, repoStatus := none }
      else
        { st with
          manuallyReady := false
          repoStatus := none
          pendingStatus := r :: st.pendingStatus
          fetchedEver := r :: st.fetchedEver }

/-- The events of one interaction: the sidebar handlers, the arrival of
the response of one in-flight status request (ok false when the fetch
throws or returns nothing), and an ask attempt (whose inline status
refetch may fail and whose answer call may fail). -/
inductive ChatEvent where
  | selectRepo (r : String) : ChatEvent
  | selectConvo (c : String) : ChatEvent
  | newRepo : ChatEvent
  | statusResolve (r : String) (ok : Bool) : ChatEvent
  | ask (fetchOk askOk : Bool) : ChatEvent

/-- What handleAsk did with an attempt: nothing (no repository), a
rejection with a toast notice, or an answer request actually sent. -/
inductive AskOutcome where
  | noRepo : AskOutcome
  | rejected (notice : String) : AskOutcome
  | sent : AskOutcome
  deriving DecidableEq

/-- The decision handleAsk takes: pass when isRepoReady; otherwise
refetch the status and pass only when the fresh status is ready,
rejecting with the not-indexed notice, or with the not-ready notice when
the fetch fails or returns nothing. -/
def handleAskOutcome (W : ChatWorld) (st : ChatUIState) (fetchOk : Bool) :
    AskOutcome :=
  match st.repoId with
  | none => AskOutcome.noRepo
  | some r =>
      if isRepoReady st then AskOutcome.sent
      else if fetchOk then
        if statusReady (W.statusOf r) then AskOutcome.sent
        else AskOutcome.rejected "Repository is not indexed yet."
      else AskOutcome.rejected "Repository is not ready yet."

/-- The state handleAsk leaves behind.  The inline refetch is awaited
inside the handler and its decision uses the local response; the
refetched status is cached in every completed refetch branch and the
refetch is recorded in the fetch history, and ask effects apply only on
a successful send. -/
def stepAsk (W : ChatWorld) (st : ChatUIState) (fetchOk askOk : Bool) :
    ChatUIState :=
  match st.repoId with
  | none => st
  | some r =>
      if isRepoReady st then
        if askOk then askSuccess st r else st
      else if fetchOk then
        let st1 := { st with
          repoStatus := some (W.statusOf r)
          fetchedEver := r :: st.fetchedEver }
        if statusReady (W.statusOf r) then
          if askOk then askSuccess st1 r else st1
        else st1
      else st

/-- One step of the interface: selecting a repository runs the status
effect for it (keyed on the repoId value, skipped when it does not
change) but leaves the loaded history; selecting a conversation loads
its messages and aligns the repository, running the same effect on a
repository change; the new-repo button clears everything; the response
of an in-flight status request, when it arrives, caches the fetched
status and raises the manual flag when it is ready, whatever repository
is current by then — the effect has no staleness guard tying the
response to the issuing repository. -/
def chatStep (W : ChatWorld) (st : ChatUIState) : ChatEvent → ChatUIState
  | ChatEvent.selectRepo r =>
      if st.repoId = some r then st
      else statusEffect { st with repoId := some r }
  | ChatEvent.selectConvo c =>
      let st1 := { st with
        conversationId := some c
        hasAssistant := W.convHasAssistant c }
      match W.convRepo c with
      | none => st1
      | some r =>
          if st.repoId = some r then st1
          else statusEffect { st1 with repoId := some r }
  | ChatEvent.newRepo =>
      statusEffect { st with
        repoId := none
        conversationId := none
        hasAssistant := false }
  | ChatEvent.statusResolve r ok =>
      if r ∈ st.pendingStatus then
        let st1 := { st with pendingStatus := st.pendingStatus.erase r }
        if ok then
          let s := W.statusOf r
          { st1 with
            repoStatus := some s
            manuallyReady := st1.manuallyReady || statusReady s }
        else st1
      else st
  | ChatEvent.ask fetchOk askOk => stepAsk W st fetchOk askOk

/-- Run a sequence of interface events from a state. -/
def chatRun (W : ChatWorld) (st : ChatUIState) : List ChatEvent → ChatUIState
  | [] => st
  | e :: rest => chatRun W (chatStep W st e) rest

/-- The readiness evidence a session can hold: some repository a status
request was ever issued for has a ready status (the issuing repository
need not be the current one — a stale response raises the flags just
the same), or some ask already succeeded during this session. -/
def sessionReadyEvidence (W : ChatWorld) (st : ChatUIState) : Prop :=
  (∃ r, r ∈ st.fetchedEver ∧ statusReady (W.statusOf r) = true) ∨
  st.extraAnswered ≠ []

/- ### The JSON primitives used by the ChatPage context cache

JSON.stringify and JSON.parse are browser primitives; the cache relies
on their round trip.  They are modelled executably: stringify emits the
compact form the browser emits (no whitespace, double-quoted strings
with the standard escapes, lowercase hex in control escapes), and parse
is a fuel-indexed recursive descent over exactly that grammar. -/

/- Size measure of a JSON value, used to bound the parser fuel. -/
mutual
def jsize : Json → Nat
  | Json.null => 1
  | Json.bool _ => 1
  | Json.num _ => 1
  | Json.str _ => 1
  | Json.arr xs => 1 + jsizeL xs
  | Json.obj fs => 1 + jsizeF fs

def jsizeL : List Json → Nat
  | [] => 0
  | j :: t => 1 + jsize j + jsizeL t

def jsizeF : List (Str × Json) → Nat
  | [] => 0
  | (_, j) :: t => 1 + jsize j + jsizeF t
end

/-- Decimal digit character. -/
def digitChar (d : Nat) : Char := Char.ofNat (48 + d)

/-- Lowercase hexadecimal digit character. -/
def hexDigitChar (d : Nat) : Char :=
  if d < 10 then Char.ofNat (48 + d) else Char.ofNat (87 + d)

/-- Big-endian decimal digits of a natural number. -/
def digitsBE (n : Nat) : List Nat :=
  if n = 0 then [0] else (Nat.digits 10 n).reverse

/-- Decimal notation of a natural number. -/
def natChars (n : Nat) : Str :=
  (digitsBE n).map digitChar

/-- Decimal notation of an integer, as JSON.stringify emits it. -/
def intChars (n : Int) : Str :=
  if n < 0 then '-' :: natChars n.natAbs else natChars n.toNat

/-- The escape JSON.stringify applies to one character of a string:
quote and backslash get a backslash, the five named controls get their
short escapes, the remaining controls get a four-digit hex escape, and
every other character stands for itself. -/
def escChar (c : Char) : Str :=
  if c = '"' then ['\\', '"']
  else if c = '\\' then ['\\', '\\']
  else if c = Char.ofNat 8 then ['\\', 'b']
  else if c = Char.ofNat 9 then ['\\', 't']
  else if c = Char.ofNat 10 then ['\\', 'n']
  else if c = Char.ofNat 12 then ['\\', 'f']
  else if c = Char.ofNat 13 then ['\\', 'r']
  else if c.toNat < 32 then
    ['\\', 'u', '0', '0', hexDigitChar (c.toNat / 16), hexDigitChar (c.toNat % 16)]
  else [c]

/-- Escape every character of a string body. -/
def escChars : Str → Str
  | [] => []
  | c :: t => escChar c ++ escChars t

/-- A JSON string literal: quoted escaped body. -/
def strLit (s : Str) : Str :=
  '"' :: (escChars s ++ ['"'])

/- JSON.stringify, compact, on the modelled values. -/
mutual
def jsonStr : Json → Str
  | Json.null => "null".data
  | Json.bool true => "true".data
  | Json.bool false => "false".data
  | Json.num n => intChars n
  | Json.str s => strLit s
  | Json.arr [] => ['[', ']']
  | Json.arr (x :: xs) => '[' :: (jsonStr x ++ jsonArrRest xs)
  | Json.obj [] => ['{', '}']
  | Json.obj ((k, v) :: fs) =>
      '{' :: (strLit k ++ ':' :: (jsonStr v ++ jsonObjRest fs))

def jsonArrRest : List Json → Str
  | [] => [']']
  | x :: xs => ',' :: (jsonStr x ++ jsonArrRest xs)

def jsonObjRest : List (Str × Json) → Str
  | [] => ['}']
  | (k, v) :: fs => ',' :: (strLit k ++ ':' :: (jsonStr v ++ jsonObjRest fs))
end

/-- Numeric value of a hexadecimal digit character. -/
def hexVal (c : Char) : Option Nat :=
  if '0' ≤ c ∧ c ≤ '9' then some (c.toNat - 48)
  else if 'a' ≤ c ∧ c ≤ 'f' then some (c.toNat - 87)
  else if 'A' ≤ c ∧ c ≤ 'F' then some (c.toNat - 55)
  else none

/-- Numeric value of a decimal digit character. -/
def digitVal (c : Char) : Option Nat :=
  if '0' ≤ c ∧ c ≤ '9' then some (c.toNat - 48) else none

/-- Parse a string body after its opening quote, resolving escapes;
returns the body and the input after the closing quote. -/
def pStr : Str → Option (Str × Str)
  | [] => none
  | c :: t =>
      if c = '"' then some ([], t)
      else if c = '\\' then
        match t with
        | [] => none
        | e :: t2 =>
            if e = '"' then (pStr t2).map (fun r => ('"' :: r.1, r.2))
            else if e = '\\' then (pStr t2).map (fun r => ('\\' :: r.1, r.2))
            else if e = '/' then (pStr t2).map (fun r => ('/' :: r.1, r.2))
            else if e = 'b' then (pStr t2).map (fun r => (Char.ofNat 8 :: r.1, r.2))
            else if e = 'f' then (pStr t2).map (fun r => (Char.ofNat 12 :: r.1, r.2))
            else if e = 'n' then (pStr t2).map (fun r => (Char.ofNat 10 :: r.1, r.2))
            else if e = 'r' then (pStr t2).map (fun r => (Char.ofNat 13 :: r.1, r.2))
            else if e = 't' then (pStr t2).map (fun r => (Char.ofNat 9 :: r.1, r.2))
            else if e = 'u' then
              match t2 with
              | h1 :: h2 :: h3 :: h4 :: t3 =>
                  match hexVal h1, hexVal h2, hexVal h3, hexVal h4 with
                  | some a, some b, some c2, some d =>
                      (pStr t3).map
                        (fun r => (Char.ofNat (((a * 16 + b) * 16 + c2) * 16 + d) :: r.1, r.2))
                  | _, _, _, _ => none
              | _ => none
            else none
      else (pStr t).map (fun r => (c :: r.1, r.2))

/-- Read a maximal run of decimal digits. -/
def pDigits : Str → (List Nat × Str)
  | [] => ([], [])
  | c :: t =>
      match digitVal c with
      | none => ([], c :: t)
      | some d =>
          let r := pDigits t
          (d :: r.1, r.2)

/-- Value of a big-endian digit list. -/
def natOfDigitsBE (l : List Nat) : Nat :=
  l.foldl (fun a d => 10 * a + d) 0

/- Fuel-indexed recursive descent for JSON values and the element and
field lists of arrays and objects. -/
mutual
def pVal : Nat → Str → Option (Json × Str)
  | 0, _ => none
  | Nat.succ f, input =>
      match input with
      | [] => none
      | c :: t =>
          if c = 'n' then
            match t with
            | 'u' :: 'l' :: 'l' :: r => some (Json.null, r)
            | _ => none
          else if c = 't' then
            match t with
            | 'r' :: 'u' :: 'e' :: r => some (Json.bool true, r)
            | _ => none
          else if c = 'f' then
            match t with
            | 'a' :: 'l' :: 's' :: 'e' :: r => some (Json.bool false, r)
            | _ => none
          else if c = '"' then
            (pStr t).map (fun r => (Json.str r.1, r.2))
          else if c = '-' then
            match pDigits t with
            | ([], _) => none
            | (ds, r) => some (Json.num (-(Int.ofNat (natOfDigitsBE ds))), r)
          else if (digitVal c).isSome then
            match pDigits (c :: t) with
            | (ds, r) => some (Json.num (Int.ofNat (natOfDigitsBE ds)), r)
          else if c = '[' then
            match t with
            | ']' :: r => some (Json.arr [], r)
            | _ => (pArrElems f t).map (fun r => (Json.arr r.1, r.2))
          else if c = '{' then
            match t with
            | '}' :: r => some (Json.obj [], r)
            | _ => (pObjFields f t).map (fun r => (Json.obj r.1, r.2))
          else none

def pArrElems : Nat → Str → Option (List Json × Str)
  | 0, _ => none
  | Nat.succ f, input =>
      match pVal f input with
      | none => none
      | some (j, rest) =>
          match rest with
          | ',' :: r2 => (pArrElems f r2).map (fun p => (j :: p.1, p.2))
          | ']' :: r2 => some ([j], r2)
          | _ => none

def pObjFields : Nat → Str → Option (List (Str × Json) × Str)
  | 0, _ => none
  | Nat.succ f, input =>
      match input with
      | '"' :: t =>
          match pStr t with
          | none => none
          | some (k, rest) =>
              match rest with
              | ':' :: r2 =>
                  match pVal f r2 with
                  | none => none
                  | some (v, r3) =>
                      match r3 with
                      | ',' :: r4 => (pObjFields f r4).map (fun p => ((k, v) :: p.1, p.2))
                      | '}' :: r4 => some ([(k, v)], r4)
                      | _ => none
              | _ => none
      | _ => none
end

/-- JSON.parse on a whole text: enough fuel for any value the text can
encode, and no input may remain. -/
def jsonParse (s : Str) : Option Json :=
  match pVal (2 * s.length + 2) s with
  | some (j, []) => some j
  | _ => none

/-- A text head that cannot extend a decimal digit run; the parser
correctness statements thread this through continuations. -/
def noLeadDigit (s : Str) : Prop :=
  ∀ d, s.head? = some d → digitVal d = none

/- ### ChatPage context cache (ChatPage.tsx, readCtxCache and friends)

localStorage is a record from key strings to stored strings; the cache
functions are direct transcriptions, with JSON.parse and JSON.stringify
the modelled primitives above. -/

/-- The guard applied to a parsed cache value: typeof object and truthy.
Arrays pass it (typeof of an array is object and arrays are truthy);
null is object-typed but falsy; every other primitive fails typeof. -/
def jsTypeofObjectTruthy : Json → Bool
  | Json.obj _ => true
  | Json.arr _ => true
  | _ => false

/-- The localStorage key of a conversation's context cache. -/
def ctxKey (cid : String) : String :=
  "ctxcache:" ++ cid

/-- readCtxCache: a missing or empty stored value reads as the empty
object, a value JSON.parse rejects reads as the empty object, a parsed
value failing the object guard reads as the empty object, and otherwise
the parsed value is returned as is. -/
def readCtxCache (st : List (String × Str)) (cid : String) : Json :=
  match recordGet st (ctxKey cid) with
  | none => Json.obj []
  | some raw =>
      if raw.isEmpty then Json.obj []
      else
        match jsonParse raw with
        | none => Json.obj []
        | some v => if jsTypeofObjectTruthy v then v else Json.obj []

/-- writeCtxCache: store the serialized map under the conversation key. -/
def writeCtxCache (st : List (String × Str)) (cid : String) (m : Json) :
    List (String × Str) :=
  recordSet st (ctxKey cid) (jsonStr m)

/-- Index keys contributed by spreading an array. -/
def idxFields : Nat → List Json → List (Str × Json)
  | _, [] => []
  | i, x :: t => (natChars i, x) :: idxFields (i + 1) t

/-- The own enumerable properties a value contributes to an object
spread: object fields, array elements under their decimal index keys,
string characters likewise; other primitives contribute nothing. -/
def jsonFieldsOf : Json → List (Str × Json)
  | Json.obj fs => fs
  | Json.arr xs => idxFields 0 xs
  | Json.str s => idxFields 0 (s.map (fun c => Json.str [c]))
  | _ => []

/-- Merge property lists as a two-spread object literal does: start from
the base properties and assign every add property over them in order. -/
def mergeFields (base add : List (Str × Json)) : List (Str × Json) :=
  add.foldl (fun m p => recordSet m p.1 p.2) base

/-- The object literal with base spread then add spread. -/
def jsonSpread2 (base add : Json) : Json :=
  Json.obj (mergeFields (jsonFieldsOf base) (jsonFieldsOf add))

/-- mergeCtxCache: read the stored map, spread the additions over it,
persist and return the merged map. -/
def mergeCtxCache (st : List (String × Str)) (cid : String) (add : Json) :
    Json × List (String × Str) :=
  let base := readCtxCache st cid
  let merged := jsonSpread2 base add
  (merged, writeCtxCache st cid merged)

/-- Property read on a JSON object value. -/
def jsonObjGet (m : Json) (k : Str) : Option Json :=
  match m with
  | Json.obj fs => recordGet fs k
  | _ => none

/- ### Concrete states used by the counterexamples and witnesses -/

/-- A repository row used by the concrete database states. -/
def exRepoRow : RepoRow :=
  { id := "r1"
    owner_user_id := none
    source_type := "git"
    source_uri := some "https://github.com/u/r1"
    storage_path := "/data/r1"
    name := "r1"
    title := none
    is_shared := false
    created_at := 0
    last_indexed_at := none
    metadata := Json.emptyObj }

/-- A document row of that repository. -/
def exDocRow : DocumentRow :=
  { id := 10
    repo_id := "r1"
    title := none
    description := none
    source_type := some "file"
    source_uri := some "src/main.ts"
    version := 1
    checksum := some "abc"
    ingestion_status := "ingested"
    ingested_at := none
    created_at := 0
    metadata := Json.emptyObj }

/-- A chunk row of that document, parameterized by its primary key so
that two distinct rows can otherwise coincide. -/
def exChunkRow (i : Uuid) : DocumentChunkRow :=
  { id := i
    document_id := some 10
    chunk_text := "let x = 1"
    chunk_hash := "h1"
    chunk_index := 0
    start_offset := some 0
    end_offset := some 9
    search_vector := none
    embedding := none
    embedding_model := none
    embedding_created_at := none
    embedding_metadata := Json.emptyObj
    token_count := none
    created_at := 0
    metadata := Json.emptyObj }

/-- A database state holding two chunk rows of one document that agree
on chunk_index and chunk_hash and differ only in primary key; every
constraint the migration declares is satisfied. -/
def exDbDup : Database :=
  { users := []
    repos := [exRepoRow]
    conversations := []
    messages := []
    documents := [exDocRow]
    document_chunks := [exChunkRow 0, exChunkRow 1]
    rag_queries := []
    retrieved_chunks := [] }

/-- A database state with one full chain repo, document, chunk,
conversation, message, query and audit row, used to exercise the
cascading delete. -/
def exDb4 : Database :=
  { users := []
    repos := [exRepoRow]
    conversations :=
      [{ id := 20
         repo_id := "r1"
         user_id := none
         title := none
         type := some "chat"
         source := none
         is_archived := false
         is_favorite := false
         last_interacted_at := none
         message_count := 0
         metadata := Json.emptyObj
         created_at := 0 }]
    messages :=
      [{ id := 30
         conversation_id := some 20
         user_id := none
         content := "hi"
         role := "user"
         created_at := 0
         metadata := Json.emptyObj }]
    documents := [exDocRow]
    document_chunks := [exChunkRow 0]
    rag_queries :=
      [{ id := 40
         conversation_id := some 20
         user_id := none
         query_text := "what does main do"
         response_text := some "it boots the app"
         response_metadata := none
         created_at := 0 }]
    retrieved_chunks :=
      [{ id := 50
         rag_query_id := some 40
         document_chunk_id := some 0
         score := some 1
         rank := some 1
         used_in_prompt := true
         created_at := 0 }] }

/-- The state the cascading delete of repository r1 leaves behind. -/
def exDb4Result : Database :=
  match deleteRepoCascade exDb4 "r1" with
  | some d => d
  | none => exDb4

/-- A chunk row carrying an embedding of the declared dimensionality,
tagged with its model. -/
def exChunkRowEmbedded : DocumentChunkRow :=
  { exChunkRow 0 with
    embedding := some (List.replicate 1536 0)
    embedding_model := some "text-embedding-model"
    embedding_created_at := some 0 }

/-- A database state whose single chunk stores an embedding. -/
def exDb5 : Database :=
  { users := []
    repos := [exRepoRow]
    conversations := []
    messages := []
    documents := [exDocRow]
    document_chunks := [exChunkRowEmbedded]
    rag_queries := []
    retrieved_chunks := [] }

/-- Modelled from the spec: the Embedding Generator (backend code absent
from the sources) stores a computed vector on its chunk together with
the identity of the model that produced it. -/
def storeEmbedding (c : DocumentChunkRow) (v : List Int) (model : String)
    (t : Int) : DocumentChunkRow :=
  { c with
    embedding := some v
    embedding_model := some model
    embedding_created_at := some t }

/-- A backend world with one ready, answered repository a (conversation
c1 holds an assistant message) and one unready, never answered
repository b. -/
def exWorld : ChatWorld :=
  { statusOf := fun r =>
      if r = "a" then { status := "indexed", documents := 3 }
      else { status := "indexing", documents := 0 }
    convRepo := fun c => if c = "c1" then some "a" else none
    convHasAssistant := fun c => decide (c = "c1")
    answeredRepo := fun r => decide (r = "a") }

/-- Opening the conversation of repository a and then selecting
repository b from the sidebar. -/
def exTrace : List ChatEvent :=
  [ChatEvent.selectConvo "c1", ChatEvent.selectRepo "b"]

/-- Selecting repository a, selecting repository b while a's status
request is still in flight, then the arrival of a's ready response:
with no staleness guard it raises the manual flag while b is
current. -/
def exStaleTrace : List ChatEvent :=
  [ChatEvent.selectRepo "a", ChatEvent.selectRepo "b",
   ChatEvent.statusResolve "a" true]

/-- A raw conversation record whose id field is present but holds the
empty string, while conversation_id and repo_id are present and
nonempty. -/
def exRawConvo : RawConvo :=
  { id := JsVal.str ""
    conversation_id := JsVal.str "c1"
    conversationId := JsVal.undef
    pk := JsVal.undef
    repo_id := JsVal.str "r1"
    repoId := JsVal.undef
    repository_id := JsVal.undef
    title := JsVal.undef
    name := JsVal.undef
    latest_question := JsVal.undef
    first_message := none
    created_at := JsVal.undef
    createdAt := JsVal.undef
    updated_at := JsVal.undef
    updatedAt := JsVal.undef }

/-- A localStorage state whose cache entry for conversation c1 holds a
JSON array, a corrupt value for a map-shaped cache. -/
def exCorruptStore : List (String × Str) :=
  [(ctxKey "c1", "[0]".data)]

/-- The invariant the ChatPage state keeps: every in-flight status
request is recorded in the fetch history, and whenever the manual-ready
flag is up, or a ready status is cached, the session holds readiness
evidence — a ready status of SOME repository a request was issued for
(not necessarily the current one), or a successful ask. -/
def chatInv (W : ChatWorld) (st : ChatUIState) : Prop :=
  (∀ r, r ∈ st.pendingStatus → r ∈ st.fetchedEver) ∧
  (st.manuallyReady = true → sessionReadyEvidence W st) ∧
  (∀ s, st.repoStatus = some s → statusReady s = true →
    sessionReadyEvidence W st)

/-! ## Theorems -/

/-- Claim C1 (amended): the only uniqueness the document_chunks schema
enforces is the primary key — rows with equal id are the same row — and
the pair uniqueness the specification asserts on (document_id,
chunk_index) and (document_id, chunk_hash) is not a consequence of the
declared schema. -/
theorem claim_C1_amended :
    (∀ db : Database, databaseValid db →
      ∀ c1 ∈ db.document_chunks, ∀ c2 ∈ db.document_chunks,
        c1.id = c2.id → c1 = c2) ∧
    ¬ (∀ db : Database, databaseValid db → chunkPairsUnique db) := by
  constructor
  · intro db hdb c1 h1 c2 h2 hid
    obtain ⟨-, -, -, -, -, -, -, -, -, -, -, hnd, -⟩ := hdb
    exact List.inj_on_of_nodup_map hnd h1 h2 hid
  · intro h
    have hv : databaseValid exDbDup := by decide
    have h2 := h exDbDup hv (exChunkRow 0) (by simp [exDbDup])
        (exChunkRow 1) (by simp [exDbDup]) 10 rfl rfl (by decide)
    exact h2.1 rfl

/-- Claim C1 (counterexample): a database state satisfying every
constraint migration 0002 declares in which one document owns two chunk
rows with the same chunk_index and the same chunk_hash — the claimed
store-level uniqueness does not hold. -/
theorem claim_C1_counterexample :
    databaseValid exDbDup ∧ ¬ chunkPairsUnique exDbDup := by
  constructor
  · decide
  · intro h
    exact (h (exChunkRow 0) (by simp [exDbDup]) (exChunkRow 1)
        (by simp [exDbDup]) 10 rfl rfl (by decide)).1 rfl

/-- Witness for C1: the amended theorem applied to the concrete state. -/
theorem claim_C1_witness :
    databaseValid exDbDup ∧ exChunkRow 0 = exChunkRow 0 :=
  ⟨by decide,
    claim_C1_amended.1 exDbDup (by decide) (exChunkRow 0) (by simp [exDbDup])
      (exChunkRow 0) (by simp [exDbDup]) rfl⟩

/-- Claim C4: when the cascading delete of a repository succeeds, no
repository row with that id, none of its documents, none of the chunks
of those documents, none of its conversations, and no query or
retrieved-chunk audit row recorded under those conversations survives. -/
theorem claim_C4 (db : Database) (rid : String) (db2 : Database)
    (h : deleteRepoCascade db rid = some db2) : cascadeScrubbed db db2 rid := by
  unfold deleteRepoCascade at h
  split at h
  · cases h
  · rename_i hno
    obtain rfl := (Option.some.inj h).symm
    refine ⟨?_, ?_, ?_, ?_, ?_, ?_⟩
    · intro r hr
      obtain ⟨-, hcond⟩ := List.mem_filter.mp hr
      exact of_decide_eq_true hcond
    · intro d hd
      obtain ⟨-, hcond⟩ := List.mem_filter.mp hd
      exact of_decide_eq_true hcond
    · intro c hc
      obtain ⟨-, hcond⟩ := List.mem_filter.mp hc
      exact of_decide_eq_true hcond
    · intro ch hch d hd hrid heq
      obtain ⟨-, hcond⟩ := List.mem_filter.mp hch
      rw [Bool.not_eq_true', heq] at hcond
      simp only [optMem, decide_eq_false_iff_not] at hcond
      exact hcond (List.mem_map.mpr
        ⟨d, List.mem_filter.mpr ⟨hd, by simp [hrid]⟩, rfl⟩)
    · intro q hq c hc hrid heq
      obtain ⟨-, hcond⟩ := List.mem_filter.mp hq
      rw [Bool.not_eq_true', heq] at hcond
      simp only [optMem, decide_eq_false_iff_not] at hcond
      exact hcond (List.mem_map.mpr
        ⟨c, List.mem_filter.mpr ⟨hc, by simp [hrid]⟩, rfl⟩)
    · intro rr hrr q hq c hc hrid hconv heq
      obtain ⟨-, hcond⟩ := List.mem_filter.mp hrr
      rw [Bool.not_eq_true', heq] at hcond
      simp only [optMem, decide_eq_false_iff_not] at hcond
      refine hcond (List.mem_map.mpr ⟨q, List.mem_filter.mpr ⟨hq, ?_⟩, rfl⟩)
      rw [hconv]
      simp only [optMem, decide_eq_true_eq]
      exact List.mem_map.mpr ⟨c, List.mem_filter.mpr ⟨hc, by simp [hrid]⟩, rfl⟩

/-- Witness for C4: the delete succeeds on the concrete full-chain state
and scrubs it. -/
theorem claim_C4_witness :
    deleteRepoCascade exDb4 "r1" = some exDb4Result ∧
    cascadeScrubbed exDb4 exDb4Result "r1" :=
  ⟨rfl, claim_C4 exDb4 "r1" exDb4Result rfl⟩

/-- Claim C5: the vector index over chunk embeddings is declared with
the fixed Euclidean operator class (a constant of the schema, not a
per-query choice), every stored embedding has the declared
dimensionality 1536, and the spec-modelled embedding writer tags each
stored vector with its model. -/
theorem claim_C5 :
    idx_document_chunks_embedding.ops = VectorOps.l2 ∧
    opsIsEuclidean idx_document_chunks_embedding.ops = true ∧
    idx_document_chunks_embedding.tableName = "document_chunks" ∧
    idx_document_chunks_embedding.columnName = "embedding" ∧
    embeddingDimension = 1536 ∧
    (∀ db : Database, databaseValid db →
      ∀ c ∈ db.document_chunks, ∀ v, c.embedding = some v → v.length = 1536) ∧
    (∀ (c : DocumentChunkRow) (v : List Int) (model : String) (t : Int),
      (storeEmbedding c v model t).embedding_model = some model) := by
  refine ⟨rfl, rfl, rfl, rfl, rfl, ?_, ?_⟩
  · intro db hdb c hc v hv
    obtain ⟨-, -, -, -, -, -, -, -, -, -, -, -, hch, -⟩ := hdb
    exact (hch c hc).2 v hv
  · intro c v model t
    rfl

/-- Witness for C5: the concrete state with a stored 1536-component
embedding. -/
theorem claim_C5_witness :
    databaseValid exDb5 ∧ (List.replicate 1536 (0 : Int)).length = 1536 :=
  ⟨by decide,
    claim_C5.2.2.2.2.2.1 exDb5 (by decide) exChunkRowEmbedded
      (by simp [exDb5]) (List.replicate 1536 0) rfl⟩

/-- Ranks of the used rows the recorder emits from position i on: the
contiguous range from i+1 up to the top-K bound. -/
theorem recordRetrievedAux_used_ranks (qid : Uuid) (topK : Nat) :
    ∀ (cs : List RankedCandidate) (i : Nat),
      ((recordRetrievedAux qid topK i cs).filter
          (fun r => r.used_in_prompt)).map RetrievedChunkRow.rank =
        (List.range' (i + 1) (min topK (i + cs.length) - i)).map
          (fun n => some (Int.ofNat n)) := by
  intro cs
  induction cs with
  | nil =>
      intro i
      have h0 : min topK (i + 0) - i = 0 := by omega
      simp [recordRetrievedAux, h0]
  | cons c rest ih =>
      intro i
      by_cases h : i < topK
      · have harith : min topK (i + (rest.length + 1)) - i
            = (min topK ((i + 1) + rest.length) - (i + 1)) + 1 := by omega
        simp only [recordRetrievedAux, List.length_cons, harith]
        rw [List.filter_cons_of_pos (by simp [h]), List.range'_succ]
        simp only [List.map_cons, ih (i + 1)]
      · have harith : min topK (i + (rest.length + 1)) - i = 0 := by omega
        have harith2 : min topK ((i + 1) + rest.length) - (i + 1) = 0 := by omega
        simp only [recordRetrievedAux, List.length_cons, harith]
        rw [List.filter_cons_of_neg (by simp [h])]
        rw [ih (i + 1)]
        simp [harith2]

/-- Claim C2 (spec-modelled recorder): among the rows the Query Recorder
emits for a query, those with used_in_prompt true carry exactly the
ranks 1..N with no gaps, pairwise distinct, where N is their number
(the top-K bound capped by the candidate count). -/
theorem claim_C2 (qid : Uuid) (topK : Nat) (ranked : List RankedCandidate) :
    ((recordRetrieved qid topK ranked).filter
        (fun r => r.used_in_prompt)).map RetrievedChunkRow.rank =
      (List.range' 1 (min topK ranked.length)).map (fun n => some (Int.ofNat n)) ∧
    (((recordRetrieved qid topK ranked).filter
        (fun r => r.used_in_prompt)).map RetrievedChunkRow.rank).Nodup ∧
    ((recordRetrieved qid topK ranked).filter
        (fun r => r.used_in_prompt)).length = min topK ranked.length := by
  have h0 := recordRetrievedAux_used_ranks qid topK ranked 0
  simp only [Nat.zero_add, Nat.sub_zero] at h0
  have h0' : ((recordRetrieved qid topK ranked).filter
      (fun r => r.used_in_prompt)).map RetrievedChunkRow.rank =
      (List.range' 1 (min topK ranked.length)).map (fun n => some (Int.ofNat n)) := by
    simpa [recordRetrieved] using h0
  refine ⟨h0', ?_, ?_⟩
  · rw [h0']
    refine List.Nodup.map ?_ (List.nodup_range' 1 (min topK ranked.length))
    intro a b hab
    simpa using hab
  · have hlen := congrArg List.length h0'
    simpa [List.length_map, List.length_range'] using hlen

/-- Reading the key just set yields the value just set. -/
theorem recordGet_recordSet_self [DecidableEq κ] (m : List (κ × α)) (k : κ) (v : α) :
    recordGet (recordSet m k v) k = some v := by
  induction m with
  | nil => simp [recordSet, recordGet]
  | cons p t ih =>
      obtain ⟨k0, v0⟩ := p
      by_cases h : k0 = k
      · simp [recordSet, recordGet, h]
      · simp [recordSet, recordGet, h, ih]

/-- Setting one key leaves reads of other keys unchanged. -/
theorem recordGet_recordSet_other [DecidableEq κ] (m : List (κ × α)) (k k2 : κ) (v : α)
    (h : k2 ≠ k) : recordGet (recordSet m k v) k2 = recordGet m k2 := by
  have hk : ¬ (k = k2) := fun hh => h hh.symm
  induction m with
  | nil => simp [recordSet, recordGet, hk]
  | cons p t ih =>
      obtain ⟨k0, v0⟩ := p
      by_cases h0 : k0 = k
      · subst h0
        simp [recordSet, recordGet, hk]
      · simp [recordSet, recordGet, h0, ih]

/-- A fold of insertions never touches a key outside the inserted ones. -/
theorem recordGet_foldl_notmem [DecidableEq κ] (f : β → κ) (g : β → α) :
    ∀ (l : List β) (init : List (κ × α)) (k : κ), k ∉ l.map f →
      recordGet (l.foldl (fun m x => recordSet m (f x) (g x)) init) k
        = recordGet init k := by
  intro l
  induction l with
  | nil => intro init k _; rfl
  | cons x t ih =>
      intro init k hk
      simp only [List.map_cons, List.mem_cons, not_or] at hk
      simp only [List.foldl_cons]
      rw [ih (recordSet init (f x) (g x)) k hk.2]
      exact recordGet_recordSet_other init (f x) k (g x) hk.1

/-- With pairwise distinct keys, a fold of insertions makes every
inserted key read its inserted value. -/
theorem recordGet_foldl_mem [DecidableEq κ] (f : β → κ) (g : β → α) :
    ∀ (l : List β) (init : List (κ × α)), (l.map f).Nodup →
      ∀ b ∈ l, recordGet (l.foldl (fun m x => recordSet m (f x) (g x)) init) (f b)
        = some (g b) := by
  intro l
  induction l with
  | nil => intro init _ b hb; cases hb
  | cons x t ih =>
      intro init hnd b hb
      simp only [List.map_cons, List.nodup_cons] at hnd
      simp only [List.foldl_cons]
      rcases List.mem_cons.mp hb with rfl | hbt
      · rw [recordGet_foldl_notmem f g t (recordSet init (f b) (g b)) (f b) hnd.1]
        exact recordGet_recordSet_self init (f b) (g b)
      · exact ih (recordSet init (f x) (g x)) hnd.2 b hbt

/-- Claim C7: the spec-modelled delete endpoint is idempotent — a second
delete of the same repository leaves the same state and answers with the
same deleted status — and the client deleteRepo wrapper reports success
exactly when the response body's status field equals deleted, returning
false (not throwing) on any other completed response. -/
theorem claim_C7 (repos : List String) (rid : String) :
    (serverDeleteRepo (serverDeleteRepo repos rid).1 rid).1
      = (serverDeleteRepo repos rid).1 ∧
    (serverDeleteRepo (serverDeleteRepo repos rid).1 rid).2
      = (serverDeleteRepo repos rid).2 ∧
    (serverDeleteRepo repos rid).2.status = "deleted" ∧
    deleteRepo (some (serverDeleteRepo repos rid).2) = true ∧
    (∀ resp : Option DeleteRepoResp,
      deleteRepo resp = true ↔ ∃ d, resp = some d ∧ d.status = "deleted") := by
  refine ⟨?_, rfl, rfl, by simp [deleteRepo, serverDeleteRepo], ?_⟩
  · simp [serverDeleteRepo, List.filter_filter]
  · intro resp
    cases resp with
    | none => simp [deleteRepo]
    | some d => simp [deleteRepo, beq_iff_eq]

/-- Witness for C7: the wrapper accepts the modelled server's response. -/
theorem claim_C7_witness :
    deleteRepo (some (serverDeleteRepo ["x"] "x").2) = true :=
  (claim_C7 ["x"] "x").2.2.2.1

/-- Claim C10: getRepoBriefs keys a successful briefs listing by brief
id; on a 404 it falls back to the names listing, building a brief per
name keyed by id with the name as label; any other failure is rethrown
unchanged. -/
theorem claim_C10 (bs : List RepoBrief) (ns : List (String × String))
    (e : HttpFailure)
    (namesResp : Except HttpFailure (Option (List (String × String)))) :
    (∀ m, getRepoBriefs (Except.ok (some bs)) namesResp = Except.ok m →
      (bs.map RepoBrief.id).Nodup → ∀ r ∈ bs, recordGet m r.id = some r) ∧
    (∀ m2, e.status = some 404 →
      getRepoBriefs (Except.error e) (Except.ok (some ns)) = Except.ok m2 →
      (ns.map Prod.fst).Nodup →
      ∀ p ∈ ns, recordGet m2 p.1 =
        some { id := p.1, label := p.2, source_type := none }) ∧
    (e.status ≠ some 404 →
      getRepoBriefs (Except.error e) namesResp = Except.error e) := by
  refine ⟨?_, ?_, ?_⟩
  · intro m hm hnd r hr
    simp only [getRepoBriefs, Option.getD, Except.ok.injEq] at hm
    subst hm
    exact recordGet_foldl_mem RepoBrief.id (fun r => r) bs [] hnd r hr
  · intro m2 h404 hm hnd p hp
    simp only [getRepoBriefs, getRepoNames, h404, ne_eq, not_true_eq_false,
      if_false, Option.getD, Except.ok.injEq] at hm
    subst hm
    exact recordGet_foldl_mem Prod.fst
      (fun p => ({ id := p.1, label := p.2, source_type := none } : RepoBrief))
      ns [] hnd p hp
  · intro hne
    simp [getRepoBriefs, hne]

/-- Witness for C10: a one-brief listing read back by its id. -/
theorem claim_C10_witness :
    recordGet
      [("r1", ({ id := "r1", label := "Repo One", source_type := none } : RepoBrief))]
      "r1" = some { id := "r1", label := "Repo One", source_type := none } :=
  (claim_C10 [{ id := "r1", label := "Repo One", source_type := none }] []
      { status := some 500 } (Except.ok (some []))).1
    [("r1", { id := "r1", label := "Repo One", source_type := none })] rfl
    (by decide) { id := "r1", label := "Repo One", source_type := none } (by simp)

/-- Claim C8 (counterexample): a record whose id field is present but
holds the empty string normalizes to null even though another accepted
identifier field (conversation_id) and a repository field are present
and nonempty — the record does not lack the accepted fields, yet it is
dropped. -/
theorem claim_C8_counterexample :
    normalizeConvo (some exRawConvo) = none ∧
    exRawConvo.conversation_id = JsVal.str "c1" ∧
    exRawConvo.repo_id = JsVal.str "r1" :=
  ⟨rfl, rfl, rfl⟩

/-- Claim C8 (amended): normalizeConvo returns null exactly when the
first non-nullish value of the id chain or of the repository chain is
falsy (in particular when every alternative is absent, but also when a
present first alternative is an empty string or zero); otherwise the
produced id and repo_id are the String() forms of those first
non-nullish values; and listConversations keeps exactly the records
normalizing to non-null. -/
theorem claim_C8_amended (raw : Option RawConvo) :
    (normalizeConvo raw = none ↔
      (jsFalsy (convoIdChain raw) = true ∨ jsFalsy (convoRepoChain raw) = true)) ∧
    (∀ c, normalizeConvo raw = some c →
      c.id = jsToString (convoIdChain raw) ∧
      c.repo_id = jsToString (convoRepoChain raw)) ∧
    (∀ rows : Option (List (Option RawConvo)), ∀ c,
      c ∈ listConversations rows ↔
        ∃ r ∈ rows.getD [], normalizeConvo r = some c) := by
  refine ⟨?_, ?_, ?_⟩
  · unfold normalizeConvo
    cases hA : jsFalsy (convoIdChain raw) <;>
      cases hB : jsFalsy (convoRepoChain raw) <;>
        simp [hA, hB]
  · intro c hc
    unfold normalizeConvo at hc
    by_cases h : (jsFalsy (convoIdChain raw) || jsFalsy (convoRepoChain raw)) = true
    · rw [if_pos h] at hc; cases hc
    · rw [if_neg h] at hc
      have hc2 := (Option.some.inj hc).symm
      subst hc2
      exact ⟨rfl, rfl⟩
  · intro rows c
    simp only [listConversations, List.reduceOption_mem_iff, List.mem_map]

/-- Witness for C8: the amended characterization applied to the concrete
record with the empty-string id. -/
theorem claim_C8_witness :
    jsFalsy (convoIdChain (some exRawConvo)) = true ∨
    jsFalsy (convoRepoChain (some exRawConvo)) = true :=
  (claim_C8_amended (some exRawConvo)).1.mp rfl

/-- btrim of the empty text is empty. -/
theorem btrimSp_nil : btrimSp [] = [] := rfl

/-- Lowering preserves emptiness. -/
theorem asciiLower_eq_nil {s : Str} : asciiLower s = [] ↔ s = [] := by
  simp [asciiLower]

/-- A text containing a nonempty pattern is nonempty. -/
theorem containsSeq_ne_nil {pat s : Str} (hp : pat ≠ [])
    (h : containsSeq pat s = true) : s ≠ [] := by
  intro hs
  subst hs
  cases pat with
  | nil => exact hp rfl
  | cons p pt => simp [containsSeq, leadsWith] at h

/-- The capture of a matching suffix is nonempty. -/
theorem captureOf_ne_nil {t : Str} (h : validRest t = true) : captureOf t ≠ [] := by
  unfold validRest at h
  rw [Bool.and_eq_true] at h
  obtain ⟨hne, -⟩ := h
  have hcore : stripTrailSlash t ≠ [] := by
    intro hcz
    rw [hcz] at hne
    simp at hne
  unfold captureOf
  dsimp only
  by_cases hgit : (endsWithSeq ".git".data (stripTrailSlash t) &&
      decide (4 < (stripTrailSlash t).length)) = true
  · rw [if_pos hgit]
    rw [Bool.and_eq_true] at hgit
    have hlen' : 4 < (stripTrailSlash t).length := of_decide_eq_true hgit.2
    apply List.ne_nil_of_length_pos
    rw [List.length_take]
    omega
  · rw [if_neg hgit]
    exact hcore

/-- A successful scan yields a nonempty capture. -/
theorem ghScan_some_ne_nil : ∀ {s cap : Str}, ghScan s = some cap → cap ≠ [] := by
  intro s
  induction s with
  | nil => intro cap h; cases h
  | cons c t ih =>
      intro cap h
      unfold ghScan at h
      cases hscan : ghScan t with
      | some cap2 =>
          rw [hscan] at h
          have := Option.some.inj h
          subst this
          exact ih hscan
      | none =>
          rw [hscan] at h
          by_cases hcond : ((c == '/' || c == ':') && validRest t) = true
          · rw [if_pos hcond] at h
            have := (Option.some.inj h).symm
            subst this
            rw [Bool.and_eq_true] at hcond
            exact captureOf_ne_nil hcond.2
          · rw [if_neg hcond] at h
            cases h

/-- derive_repo_name never returns the empty text. -/
theorem derive_repo_name_ne_nil (su sp fb : Option Str) :
    derive_repo_name su sp fb ≠ [] := by
  unfold derive_repo_name
  dsimp only
  split_ifs with h1 h2 h3
  · unfold githubBase
    cases hscan : ghScan (btrimSp (su.getD [])) with
    | some cap =>
        simp only [hscan, Option.getD_some, Ne, asciiLower_eq_nil]
        exact ghScan_some_ne_nil hscan
    | none =>
        simp only [hscan, Option.getD_none, Ne, asciiLower_eq_nil]
        intro hz
        exact @containsSeq_ne_nil githubComChars
          (asciiLower (btrimSp (su.getD []))) (by decide) h1 (by rw [hz]; rfl)
  · rw [Ne, asciiLower_eq_nil]
    rw [Bool.and_eq_true] at h2
    obtain ⟨-, hbase⟩ := h2
    intro hz
    rw [hz] at hbase
    simp at hbase
  · rw [Ne, asciiLower_eq_nil]
    decide
  · rw [Ne, asciiLower_eq_nil]
    intro hz
    rw [hz] at h3
    simp at h3

/-- Claim C3: the name the trigger stores on a repos row is never empty;
when the proposed name is null or blank it is exactly
derive_repo_name(source_uri, storage_path, id) — the lower-cased last
segment of a github uri, else the lower-cased storage-path base name,
else the lower-cased identifier (or the constant repo when even the
identifier is blank) — and otherwise the proposed name is kept
unchanged.  All functions involved are pure, so equal inputs always
yield equal stored names. -/
theorem claim_C3 (name su sp : Option Str) (id : Str) :
    repos_before_ins_upd_fill_name name su sp id ≠ [] ∧
    (nameIsBlank name = true →
      repos_before_ins_upd_fill_name name su sp id
        = derive_repo_name su sp (some id)) ∧
    (nameIsBlank name = false →
      repos_before_ins_upd_fill_name name su sp id = name.getD []) := by
  unfold repos_before_ins_upd_fill_name
  by_cases hb : nameIsBlank name = true
  · rw [if_pos hb]
    exact ⟨derive_repo_name_ne_nil su sp (some id), fun _ => rfl,
      fun hf => absurd hb (by simp [hf])⟩
  · rw [if_neg hb]
    refine ⟨?_, fun ht => absurd ht hb, fun _ => rfl⟩
    cases name with
    | none => simp [nameIsBlank] at hb
    | some n =>
        simp only [Option.getD_some]
        intro hn
        subst hn
        exact hb rfl

/-- Witness for C3: a blank proposed name with a github source uri is
replaced by the derived name. -/
theorem claim_C3_witness :
    repos_before_ins_upd_fill_name (some [' '])
        (some "https://github.com/U/Repo.git".data) none "x1".data ≠ [] ∧
    repos_before_ins_upd_fill_name (some [' '])
        (some "https://github.com/U/Repo.git".data) none "x1".data
      = derive_repo_name (some "https://github.com/U/Repo.git".data) none
          (some "x1".data) :=
  ⟨(claim_C3 (some [' ']) (some "https://github.com/U/Repo.git".data) none
      "x1".data).1,
    (claim_C3 (some [' ']) (some "https://github.com/U/Repo.git".data) none
      "x1".data).2.1 rfl⟩

/-- The initial page state satisfies the session-evidence invariant. -/
theorem chatInv_init (W : ChatWorld) : chatInv W initChat := by
  refine ⟨?_, ?_, ?_⟩
  · intro r hr
    exact absurd hr (by simp [initChat])
  · intro hm
    exact absurd hm (by simp [initChat])
  · intro s hs
    exact absurd hs (by simp [initChat])

/-- Session evidence persists when the fetch and answer histories only
grow. -/
theorem sessionEvidence_mono (W : ChatWorld) (st st2 : ChatUIState)
    (hf : ∀ r, r ∈ st.fetchedEver → r ∈ st2.fetchedEver)
    (ha : st.extraAnswered ≠ [] → st2.extraAnswered ≠ [])
    (h : sessionReadyEvidence W st) : sessionReadyEvidence W st2 := by
  rcases h with ⟨r, hr, hready⟩ | hne
  · exact Or.inl ⟨r, hf r hr, hready⟩
  · exact Or.inr (ha hne)

/-- The synchronous part of the status effect restores the invariant:
the readiness flags are cleared and a newly issued request is recorded
in the fetch history. -/
theorem statusEffect_inv (W : ChatWorld) (st : ChatUIState)
    (h1 : ∀ r, r ∈ st.pendingStatus → r ∈ st.fetchedEver) :
    chatInv W (statusEffect st) := by
  unfold statusEffect
  cases hrep : st.repoId with
  | none =>
      refine ⟨h1, ?_, ?_⟩
      · intro hm
        exact absurd hm (by simp)
      · intro s hs
        exact absurd hs (by simp)
  | some r =>
      dsimp only
      by_cases hr : r = ""
      · rw [if_pos hr]
        refine ⟨h1, ?_, ?_⟩
        · intro hm
          exact absurd hm (by simp)
        · intro s hs
          exact absurd hs (by simp)
      · rw [if_neg hr]
        refine ⟨?_, ?_, ?_⟩
        · intro x hx
          rcases List.mem_cons.mp hx with rfl | hx2
          · exact List.mem_cons_self _ _
          · exact List.mem_cons_of_mem _ (h1 x hx2)
        · intro hm
          exact absurd hm (by simp)
        · intro s hs
          exact absurd hs (by simp)

/-- A successful ask leaves the invariant standing: the asked
repository joins the answered history, which is evidence on its own. -/
theorem askSuccessInv (W : ChatWorld) (st : ChatUIState) (r : String)
    (h1 : ∀ x, x ∈ st.pendingStatus → x ∈ st.fetchedEver) :
    chatInv W (askSuccess st r) := by
  refine ⟨h1, ?_, ?_⟩
  · intro _
    exact Or.inr (by simp [askSuccess])
  · intro s _ _
    exact Or.inr (by simp [askSuccess])

/-- Every interface event preserves the invariant — in particular the
unguarded arrival of a stale status response only ever raises the flags
on the strength of a really fetched, really ready repository. -/
theorem chatStep_inv (W : ChatWorld) (st : ChatUIState) (e : ChatEvent)
    (h : chatInv W st) : chatInv W (chatStep W st e) := by
  obtain ⟨h1, h2, h3⟩ := h
  cases e with
  | selectRepo r =>
      by_cases hr : st.repoId = some r
      · simp only [chatStep, if_pos hr]
        exact ⟨h1, h2, h3⟩
      · simp only [chatStep, if_neg hr]
        exact statusEffect_inv W _ h1
  | selectConvo c =>
      cases hcv : W.convRepo c with
      | none =>
          simp only [chatStep, hcv]
          exact ⟨fun x hx => h1 x hx, fun hm => h2 hm, fun s hs => h3 s hs⟩
      | some r =>
          by_cases hr : st.repoId = some r
          · simp only [chatStep, hcv, if_pos hr]
            exact ⟨fun x hx => h1 x hx, fun hm => h2 hm, fun s hs => h3 s hs⟩
          · simp only [chatStep, hcv, if_neg hr]
            exact statusEffect_inv W _ h1
  | newRepo =>
      exact statusEffect_inv W _ h1
  | statusResolve r ok =>
      by_cases hmem : r ∈ st.pendingStatus
      · simp only [chatStep, if_pos hmem]
        cases ok with
        | false =>
            refine ⟨?_, ?_, ?_⟩
            · intro x hx
              exact h1 x (List.mem_of_mem_erase hx)
            · intro hm
              exact h2 hm
            · intro s hs hready
              exact h3 s hs hready
        | true =>
            refine ⟨?_, ?_, ?_⟩
            · intro x hx
              exact h1 x (List.mem_of_mem_erase hx)
            · intro hm
              have hm2 : (st.manuallyReady || statusReady (W.statusOf r)) = true := hm
              rw [Bool.or_eq_true] at hm2
              rcases hm2 with hmm | hms
              · exact h2 hmm
              · exact Or.inl ⟨r, h1 r hmem, hms⟩
            · intro s hs hready
              have hs2 : s = W.statusOf r := (Option.some.inj hs).symm
              rw [hs2] at hready
              exact Or.inl ⟨r, h1 r hmem, hready⟩
      · simp only [chatStep, if_neg hmem]
        exact ⟨h1, h2, h3⟩
  | ask fOk aOk =>
      show chatInv W (stepAsk W st fOk aOk)
      cases hrep : st.repoId with
      | none =>
          simp only [stepAsk, hrep]
          exact ⟨h1, h2, h3⟩
      | some r =>
          simp only [stepAsk, hrep]
          by_cases hready : isRepoReady st = true
          · rw [if_pos hready]
            cases aOk with
            | false =>
                rw [if_neg (by decide)]
                exact ⟨h1, h2, h3⟩
            | true =>
                rw [if_pos (by decide)]
                exact askSuccessInv W st r h1
          · rw [if_neg hready]
            have hmr : st.manuallyReady = false := by
              cases hmm : st.manuallyReady
              · rfl
              · exact absurd (by simp [isRepoReady, hmm]) hready
            cases fOk with
            | false =>
                rw [if_neg (by decide)]
                exact ⟨h1, h2, h3⟩
            | true =>
                rw [if_pos (by decide)]
                by_cases hs : statusReady (W.statusOf r) = true
                · rw [if_pos hs]
                  cases aOk with
                  | false =>
                      rw [if_neg (by decide)]
                      refine ⟨?_, ?_, ?_⟩
                      · intro x hx
                        exact List.mem_cons_of_mem _ (h1 x hx)
                      · intro hm
                        have hm2 : st.manuallyReady = true := hm
                        rw [hmr] at hm2
                        cases hm2
                      · intro s hs2 hready2
                        exact Or.inl ⟨r, List.mem_cons_self _ _, hs⟩
                  | true =>
                      rw [if_pos (by decide)]
                      refine ⟨?_, ?_, ?_⟩
                      · intro x hx
                        exact List.mem_cons_of_mem _ (h1 x hx)
                      · intro _
                        exact Or.inr (by simp [askSuccess])
                      · intro s _ _
                        exact Or.inr (by simp [askSuccess])
                · rw [if_neg hs]
                  refine ⟨?_, ?_, ?_⟩
                  · intro x hx
                    exact List.mem_cons_of_mem _ (h1 x hx)
                  · intro hm
                    have hm2 : st.manuallyReady = true := hm
                    rw [hmr] at hm2
                    cases hm2
                  · intro s hs2 hready2
                    have hs3 : s = W.statusOf r := (Option.some.inj hs2).symm
                    rw [hs3] at hready2
                    exact absurd hready2 hs

/-- Running any event sequence preserves the invariant. -/
theorem chatRun_inv (W : ChatWorld) :
    ∀ (evs : List ChatEvent) (st : ChatUIState),
      chatInv W st → chatInv W (chatRun W st evs) := by
  intro evs
  induction evs with
  | nil => intro st h; exact h
  | cons e rest ih =>
      intro st h
      exact ih (chatStep W st e) (chatStep_inv W st e h)

/-- Under the invariant, a sent ask means the current repository passed
its own fresh status check, or the pane holds an assistant answer, or
the session holds readiness evidence — possibly only the stale ready
status of a previously selected repository. -/
theorem handleAsk_sent_evidence (W : ChatWorld) (st : ChatUIState) (fOk : Bool)
    (hinv : chatInv W st)
    (hsent : handleAskOutcome W st fOk = AskOutcome.sent) :
    ∀ r, st.repoId = some r →
      statusReady (W.statusOf r) = true ∨ st.hasAssistant = true ∨
        sessionReadyEvidence W st := by
  intro r hr
  unfold handleAskOutcome at hsent
  rw [hr] at hsent
  dsimp only at hsent
  by_cases hready : isRepoReady st = true
  · unfold isRepoReady at hready
    cases hm : st.manuallyReady with
    | true => exact Or.inr (Or.inr (hinv.2.1 hm))
    | false =>
        cases hA : st.hasAssistant with
        | true => exact Or.inr (Or.inl rfl)
        | false =>
            cases hst : st.repoStatus with
            | none =>
                rw [hm, hA, hst] at hready
                simp at hready
            | some s =>
                rw [hm, hA, hst] at hready
                simp only [Bool.false_or] at hready
                exact Or.inr (Or.inr (hinv.2.2 s hst hready))
  · rw [if_neg hready] at hsent
    cases fOk with
    | false =>
        rw [if_neg (by decide)] at hsent
        cases hsent
    | true =>
        rw [if_pos (by decide)] at hsent
        by_cases hs : statusReady (W.statusOf r) = true
        · exact Or.inl hs
        · rw [if_neg hs] at hsent
          cases hsent

/-- Claim C6 (amended): from any reachable ChatPage state, handleAsk
sends the answer request only when the current repository passes its
own status check, or the chat pane still displays an assistant answer
(possibly loaded from a conversation of a different repository), or the
session holds readiness evidence — which, the status effect having no
staleness guard, may be only the late ready response of a previously
selected repository, raising the manual flag while an unready one is
current; otherwise the attempt is rejected with the not-indexed notice
(or the not-ready notice when the status fetch fails) and no request is
sent. -/
theorem claim_C6_amended (W : ChatWorld) (evs : List ChatEvent) (fOk : Bool) :
    (handleAskOutcome W (chatRun W initChat evs) fOk = AskOutcome.sent →
      ∀ r, (chatRun W initChat evs).repoId = some r →
        statusReady (W.statusOf r) = true ∨
        (chatRun W initChat evs).hasAssistant = true ∨
        sessionReadyEvidence W (chatRun W initChat evs)) ∧
    (∀ n, handleAskOutcome W (chatRun W initChat evs) fOk = AskOutcome.rejected n →
      (fOk = true ∧ n = "Repository is not indexed yet.") ∨
      (fOk = false ∧ n = "Repository is not ready yet.")) := by
  have hinv := chatRun_inv W evs initChat (chatInv_init W)
  constructor
  · intro hsent r hr
    exact handleAsk_sent_evidence W (chatRun W initChat evs) fOk hinv hsent r hr
  · intro n hrej
    unfold handleAskOutcome at hrej
    cases hrep : (chatRun W initChat evs).repoId with
    | none =>
        rw [hrep] at hrej
        cases hrej
    | some r =>
        rw [hrep] at hrej
        dsimp only at hrej
        by_cases hready : isRepoReady (chatRun W initChat evs) = true
        · rw [if_pos hready] at hrej
          cases hrej
        · rw [if_neg hready] at hrej
          cases fOk with
          | false =>
              rw [if_neg (by decide)] at hrej
              exact Or.inr ⟨rfl, (AskOutcome.rejected.inj hrej).symm⟩
          | true =>
              rw [if_pos (by decide)] at hrej
              by_cases hs : statusReady (W.statusOf r) = true
              · rw [if_pos hs] at hrej
                cases hrej
              · rw [if_neg hs] at hrej
                exact Or.inl ⟨rfl, (AskOutcome.rejected.inj hrej).symm⟩

/-- Claim C6 (counterexample): two reachable refutations of the claimed
rejection.  First, opening a conversation of the indexed repository a
and selecting the unready, never-answered repository b leaves a's
assistant messages on screen, so handleAsk for b sends.  Second, with
no assistant history at all, selecting a and then b while a's status
request is still in flight lets a's ready response land under b — the
effect has no staleness guard — raising the manual flag, so handleAsk
for b sends; in neither run does the claim's not-indexed rejection
happen. -/
theorem claim_C6_counterexample :
    (handleAskOutcome exWorld (chatRun exWorld initChat exTrace) true
        = AskOutcome.sent ∧
      (chatRun exWorld initChat exTrace).repoId = some "b" ∧
      statusReady (exWorld.statusOf "b") = false ∧
      exWorld.answeredRepo "b" = false ∧
      (chatRun exWorld initChat exTrace).extraAnswered = []) ∧
    (handleAskOutcome exWorld (chatRun exWorld initChat exStaleTrace) true
        = AskOutcome.sent ∧
      (chatRun exWorld initChat exStaleTrace).repoId = some "b" ∧
      (chatRun exWorld initChat exStaleTrace).hasAssistant = false ∧
      (chatRun exWorld initChat exStaleTrace).manuallyReady = true ∧
      (chatRun exWorld initChat exStaleTrace).extraAnswered = []) := by
  exact ⟨⟨by decide, by decide, by decide, by decide, by decide⟩,
    ⟨by decide, by decide, by decide, by decide, by decide⟩⟩

/-- Witness for C6: the amended gate property instantiated on the
stale-response trace, where only the session-evidence disjunct can
hold. -/
theorem claim_C6_witness :
    statusReady (exWorld.statusOf "b") = true ∨
    (chatRun exWorld initChat exStaleTrace).hasAssistant = true ∨
    sessionReadyEvidence exWorld (chatRun exWorld initChat exStaleTrace) :=
  (claim_C6_amended exWorld exStaleTrace true).1 (by decide) "b" (by decide)

/-- Decimal digit characters decode to their digit. -/
theorem digitVal_digitChar {d : Nat} (h : d < 10) : digitVal (digitChar d) = some d := by
  interval_cases d <;> decide

/-- Hexadecimal digit characters decode to their digit. -/
theorem hexVal_hexDigitChar {d : Nat} (h : d < 16) : hexVal (hexDigitChar d) = some d := by
  interval_cases d <;> decide

/-- A digit character is none of the characters the value parser
branches on first. -/
theorem digitChar_not_special {d : Nat} (h : d < 10) :
    digitChar d ≠ 'n' ∧ digitChar d ≠ 't' ∧ digitChar d ≠ 'f' ∧
    digitChar d ≠ '"' ∧ digitChar d ≠ '-' ∧ digitChar d ≠ ']' ∧
    digitChar d ≠ '}' ∧ (digitVal (digitChar d)).isSome = true := by
  interval_cases d <;> decide

/-- The big-endian digit list of a natural number is nonempty. -/
theorem digitsBE_ne_nil (n : Nat) : digitsBE n ≠ [] := by
  unfold digitsBE
  split_ifs with h
  · simp
  · simpa [Nat.digits_ne_nil_iff_ne_zero] using h

/-- Every entry of the big-endian digit list is a decimal digit. -/
theorem digitsBE_lt (n : Nat) : ∀ d ∈ digitsBE n, d < 10 := by
  unfold digitsBE
  split_ifs with h
  · simp
  · intro d hd
    rw [List.mem_reverse] at hd
    exact Nat.digits_lt_base (by norm_num) hd

/-- Folding one more digit multiplies the accumulated value by ten. -/
theorem natOfDigitsBE_append (l : List Nat) (d : Nat) :
    natOfDigitsBE (l ++ [d]) = 10 * natOfDigitsBE l + d := by
  simp [natOfDigitsBE, List.foldl_append]

/-- The big-endian fold agrees with the little-endian digit value. -/
theorem natOfDigitsBE_reverse (l : List Nat) :
    natOfDigitsBE l.reverse = Nat.ofDigits 10 l := by
  induction l with
  | nil => rfl
  | cons d t ih =>
      rw [List.reverse_cons, natOfDigitsBE_append, ih, Nat.ofDigits_cons]
      omega

/-- Decoding the digit list of a number yields the number back. -/
theorem natOfDigitsBE_digitsBE (n : Nat) : natOfDigitsBE (digitsBE n) = n := by
  unfold digitsBE
  split_ifs with h
  · subst h; rfl
  · rw [natOfDigitsBE_reverse, Nat.ofDigits_digits]

/-- A maximal digit run over an encoded digit list stops exactly at a
non-digit continuation. -/
theorem pDigits_append (ds : List Nat) (rest : Str) (hds : ∀ d ∈ ds, d < 10)
    (hrest : noLeadDigit rest) :
    pDigits (ds.map digitChar ++ rest) = (ds, rest) := by
  induction ds with
  | nil =>
      cases rest with
      | nil => rfl
      | cons c t => simp [pDigits, hrest c rfl]
  | cons d t ih =>
      have hd : d < 10 := hds d (List.mem_cons_self d t)
      simp only [List.map_cons, List.cons_append, pDigits,
        digitVal_digitChar hd, List.append_eq]
      rw [ih (fun x hx => hds x (List.mem_cons_of_mem d hx))]

/-- Continuations starting with a comma or a closing bracket or brace
cannot extend a digit run. -/
theorem noLeadDigit_cons {c : Char} (h : digitVal c = none) (L : Str) :
    noLeadDigit (c :: L) := by
  intro d hd
  cases hd
  exact h

/-- The empty continuation cannot extend a digit run. -/
theorem noLeadDigit_nil : noLeadDigit [] := by
  intro d hd
  cases hd

/-- The tail emitted after an array element starts with a comma or a
closing bracket. -/
theorem noLeadDigit_arrRest (xs : List Json) (rest : Str) :
    noLeadDigit (jsonArrRest xs ++ rest) := by
  cases xs with
  | nil => exact noLeadDigit_cons (by decide) rest
  | cons y ys =>
      simp only [jsonArrRest, List.cons_append]
      exact noLeadDigit_cons (by decide) _

/-- The tail emitted after an object field starts with a comma or a
closing brace. -/
theorem noLeadDigit_objRest (fs : List (Str × Json)) (rest : Str) :
    noLeadDigit (jsonObjRest fs ++ rest) := by
  cases fs with
  | nil => exact noLeadDigit_cons (by decide) rest
  | cons p ps =>
      obtain ⟨k, v⟩ := p
      simp only [jsonObjRest, List.cons_append]
      exact noLeadDigit_cons (by decide) _


/-- An unescaped closing quote ends the string body. -/
theorem pStr_quote (t : Str) : pStr ('"' :: t) = some ([], t) := by
  rw [pStr.eq_def]
  dsimp only
  rw [if_pos rfl]

/-- An ordinary character is consumed as itself. -/
theorem pStr_plain (c : Char) (h1 : ¬ c = '"') (h2 : ¬ c = '\\') (L : Str) :
    pStr (c :: L) = (pStr L).map (fun r => (c :: r.1, r.2)) := by
  rw [pStr.eq_def]
  dsimp only
  rw [if_neg h1, if_neg h2]

/-- The escaped quote decodes to a quote. -/
theorem pStr_esc_quote (L : Str) :
    pStr ('\\' :: '"' :: L) = (pStr L).map (fun r => ('"' :: r.1, r.2)) := by
  rw [pStr.eq_def]
  dsimp only
  rw [if_neg (by decide), if_pos rfl]
  rw [if_pos rfl]

/-- The escaped backslash decodes to a backslash. -/
theorem pStr_esc_back (L : Str) :
    pStr ('\\' :: '\\' :: L) = (pStr L).map (fun r => ('\\' :: r.1, r.2)) := by
  rw [pStr.eq_def]
  dsimp only
  rw [if_neg (by decide), if_pos rfl]
  rw [if_neg (by decide), if_pos rfl]

/-- The backspace escape decodes to the backspace character. -/
theorem pStr_esc_b (L : Str) :
    pStr ('\\' :: 'b' :: L) = (pStr L).map (fun r => (Char.ofNat 8 :: r.1, r.2)) := by
  rw [pStr.eq_def]
  dsimp only
  rw [if_neg (by decide), if_pos rfl]
  rw [if_neg (by decide), if_neg (by decide), if_neg (by decide), if_pos rfl]

/-- The form-feed escape decodes to the form-feed character. -/
theorem pStr_esc_f (L : Str) :
    pStr ('\\' :: 'f' :: L) = (pStr L).map (fun r => (Char.ofNat 12 :: r.1, r.2)) := by
  rw [pStr.eq_def]
  dsimp only
  rw [if_neg (by decide), if_pos rfl]
  rw [if_neg (by decide), if_neg (by decide), if_neg (by decide), if_neg (by decide),
    if_pos rfl]

/-- The newline escape decodes to the newline character. -/
theorem pStr_esc_n (L : Str) :
    pStr ('\\' :: 'n' :: L) = (pStr L).map (fun r => (Char.ofNat 10 :: r.1, r.2)) := by
  rw [pStr.eq_def]
  dsimp only
  rw [if_neg (by decide), if_pos rfl]
  rw [if_neg (by decide), if_neg (by decide), if_neg (by decide), if_neg (by decide),
    if_neg (by decide), if_pos rfl]

/-- The carriage-return escape decodes to the carriage-return character. -/
theorem pStr_esc_r (L : Str) :
    pStr ('\\' :: 'r' :: L) = (pStr L).map (fun r => (Char.ofNat 13 :: r.1, r.2)) := by
  rw [pStr.eq_def]
  dsimp only
  rw [if_neg (by decide), if_pos rfl]
  rw [if_neg (by decide), if_neg (by decide), if_neg (by decide), if_neg (by decide),
    if_neg (by decide), if_neg (by decide), if_pos rfl]

/-- The tab escape decodes to the tab character. -/
theorem pStr_esc_t (L : Str) :
    pStr ('\\' :: 't' :: L) = (pStr L).map (fun r => (Char.ofNat 9 :: r.1, r.2)) := by
  rw [pStr.eq_def]
  dsimp only
  rw [if_neg (by decide), if_pos rfl]
  rw [if_neg (by decide), if_neg (by decide), if_neg (by decide), if_neg (by decide),
    if_neg (by decide), if_neg (by decide), if_neg (by decide), if_pos rfl]

/-- The four-digit hex escape decodes to the encoded character. -/
theorem pStr_esc_u (a b : Nat) (ha : a < 16) (hb : b < 16) (L : Str) :
    pStr ('\\' :: 'u' :: '0' :: '0' :: hexDigitChar a :: hexDigitChar b :: L)
      = (pStr L).map (fun r => (Char.ofNat (a * 16 + b) :: r.1, r.2)) := by
  rw [pStr.eq_def]
  dsimp only
  rw [if_neg (by decide), if_pos rfl]
  rw [if_neg (by decide), if_neg (by decide), if_neg (by decide), if_neg (by decide),
    if_neg (by decide), if_neg (by decide), if_neg (by decide), if_neg (by decide),
    if_pos rfl]
  rw [hexVal_hexDigitChar ha, hexVal_hexDigitChar hb,
    (by decide : hexVal '0' = some 0)]
  simp only [Nat.zero_mul, Nat.zero_add]

/-- The string-body parser undoes the stringify escaping. -/
theorem pStr_escChars (s : Str) : ∀ rest : Str,
    pStr (escChars s ++ ('"' :: rest)) = some (s, rest) := by
  induction s with
  | nil =>
      intro rest
      simp only [escChars, List.nil_append]
      exact pStr_quote rest
  | cons c t ih =>
      intro rest
      simp only [escChars, List.append_assoc]
      unfold escChar
      split_ifs with h1 h2 h3 h4 h5 h6 h7 h8
      · subst h1
        simp only [List.cons_append, List.nil_append]
        rw [pStr_esc_quote, ih rest]
        rfl
      · subst h2
        simp only [List.cons_append, List.nil_append]
        rw [pStr_esc_back, ih rest]
        rfl
      · subst h3
        simp only [List.cons_append, List.nil_append]
        rw [pStr_esc_b, ih rest]
        rfl
      · subst h4
        simp only [List.cons_append, List.nil_append]
        rw [pStr_esc_t, ih rest]
        rfl
      · subst h5
        simp only [List.cons_append, List.nil_append]
        rw [pStr_esc_n, ih rest]
        rfl
      · subst h6
        simp only [List.cons_append, List.nil_append]
        rw [pStr_esc_f, ih rest]
        rfl
      · subst h7
        simp only [List.cons_append, List.nil_append]
        rw [pStr_esc_r, ih rest]
        rfl
      · simp only [List.cons_append, List.nil_append]
        rw [pStr_esc_u (c.toNat / 16) (c.toNat % 16) (by omega)
          (Nat.mod_lt _ (by norm_num)), ih rest]
        simp only [Option.map_some']
        have harith : c.toNat / 16 * 16 + c.toNat % 16 = c.toNat := by omega
        rw [harith, Char.ofNat_toNat]
      · simp only [List.cons_append, List.nil_append]
        rw [pStr_plain c h1 h2, ih rest]
        rfl

/-- Every JSON value has positive size. -/
theorem jsize_pos (j : Json) : 1 ≤ jsize j := by
  cases j <;> simp [jsize]

/-- Reduction of the value parser on an opening quote. -/
theorem pval_quote_red (f : Nat) (L : Str) :
    pVal (f + 1) ('"' :: L) = (pStr L).map (fun r => (Json.str r.1, r.2)) := rfl

/-- Reduction of the value parser on an object opener followed by a key
quote. -/
theorem pval_lbrace_quote_red (f : Nat) (t2 : Str) :
    pVal (f + 1) ('{' :: '"' :: t2)
      = (pObjFields f ('"' :: t2)).map (fun r => (Json.obj r.1, r.2)) := rfl

/-- Reduction of the array-element parser: one value, then a comma or
the closing bracket. -/
theorem parr_red (f : Nat) (L : Str) :
    pArrElems (f + 1) L =
      match pVal f L with
      | none => none
      | some (j, rest) =>
          match rest with
          | ',' :: r2 => (pArrElems f r2).map (fun p => (j :: p.1, p.2))
          | ']' :: r2 => some ([j], r2)
          | _ => none := rfl

/-- Reduction of the object-field parser: a quoted key, a colon, a
value, then a comma or the closing brace. -/
theorem pobj_quote_red (f : Nat) (t : Str) :
    pObjFields (f + 1) ('"' :: t) =
      match pStr t with
      | none => none
      | some (k, rest) =>
          match rest with
          | ':' :: r2 =>
              match pVal f r2 with
              | none => none
              | some (v, r3) =>
                  match r3 with
                  | ',' :: r4 => (pObjFields f r4).map (fun p => ((k, v) :: p.1, p.2))
                  | '}' :: r4 => some ([(k, v)], r4)
                  | _ => none
          | _ => none := rfl

/-- Reduction of the value parser on a decimal digit head: the maximal
digit run is read as a number. -/
theorem pval_digit_red (f : Nat) (d : Nat) (hd : d < 10) (t : Str) :
    pVal (f + 1) (digitChar d :: t)
      = match pDigits (digitChar d :: t) with
        | (ds, r) => some (Json.num (Int.ofNat (natOfDigitsBE ds)), r) := by
  interval_cases d <;> rfl

/-- Reduction of the value parser on a minus sign: a nonempty digit run
must follow and is negated. -/
theorem pval_minus_red2 (f : Nat) (L : Str) :
    pVal (f + 1) ('-' :: L) =
      (match pDigits L with
       | ([], _) => none
       | (ds, r) => some (Json.num (-(Int.ofNat (natOfDigitsBE ds))), r)) := rfl

/-- Reduction of the value parser on an array opener. -/
theorem pval_lbrack_red2 (f : Nat) (t : Str) :
    pVal (f + 1) ('[' :: t) =
      (match t with
       | ']' :: r => some (Json.arr [], r)
       | _ => (pArrElems f t).map (fun r => (Json.arr r.1, r.2))) := rfl

/-- Every stringified value starts with a character that closes neither
an array nor an object. -/
theorem jsonStr_head (j : Json) :
    ∃ c L2, jsonStr j = c :: L2 ∧ c ≠ ']' ∧ c ≠ '}' := by
  cases j with
  | null => exact ⟨'n', _, rfl, by decide, by decide⟩
  | bool b =>
      cases b with
      | true => exact ⟨'t', _, rfl, by decide, by decide⟩
      | false => exact ⟨'f', _, rfl, by decide, by decide⟩
  | num n =>
      by_cases hn : n < 0
      · refine ⟨'-', natChars n.natAbs, ?_, by decide, by decide⟩
        show intChars n = _
        rw [intChars, if_pos hn]
      · obtain ⟨d0, ds, hsplit⟩ := List.exists_cons_of_ne_nil (digitsBE_ne_nil n.toNat)
        have hd0 : d0 < 10 := digitsBE_lt n.toNat d0
          (by rw [hsplit]; exact List.mem_cons_self _ _)
        obtain ⟨-, -, -, -, -, hne1, hne2, -⟩ := digitChar_not_special hd0
        refine ⟨digitChar d0, ds.map digitChar, ?_, hne1, hne2⟩
        show intChars n = _
        rw [intChars, if_neg hn, natChars, hsplit, List.map_cons]
  | str s => exact ⟨'"', _, rfl, by decide, by decide⟩
  | arr xs =>
      cases xs with
      | nil => exact ⟨'[', _, rfl, by decide, by decide⟩
      | cons x t => exact ⟨'[', _, rfl, by decide, by decide⟩
  | obj fs =>
      cases fs with
      | nil => exact ⟨'{', _, rfl, by decide, by decide⟩
      | cons p t =>
          obtain ⟨k, v⟩ := p
          exact ⟨'{', _, rfl, by decide, by decide⟩

/-- Parser correctness: on any stringified value followed by a
continuation that cannot extend a digit run, the fuel-indexed parser,
given fuel at least the value size, returns exactly that value and the
continuation; jointly for values, array elements and object fields. -/
theorem pVal_correct : ∀ f : Nat,
    (∀ (j : Json) (rest : Str), jsize j ≤ f → noLeadDigit rest →
      pVal f (jsonStr j ++ rest) = some (j, rest)) ∧
    (∀ (x : Json) (xs : List Json) (rest : Str),
      jsizeL (x :: xs) ≤ f → noLeadDigit rest →
      pArrElems f (jsonStr x ++ (jsonArrRest xs ++ rest)) = some (x :: xs, rest)) ∧
    (∀ (k : Str) (v : Json) (fs : List (Str × Json)) (rest : Str),
      jsizeF ((k, v) :: fs) ≤ f → noLeadDigit rest →
      pObjFields f
          ('"' :: (escChars k ++ ('"' :: (':' :: (jsonStr v ++ (jsonObjRest fs ++ rest))))))
        = some ((k, v) :: fs, rest)) := by
  intro f
  induction f with
  | zero =>
      refine ⟨?_, ?_, ?_⟩
      · intro j rest hsz _
        have := jsize_pos j
        omega
      · intro x xs rest hsz _
        have := jsize_pos x
        simp only [jsizeL] at hsz
        omega
      · intro k v fs rest hsz _
        have := jsize_pos v
        simp only [jsizeF] at hsz
        omega
  | succ f ih =>
      obtain ⟨ihP, ihQ, ihR⟩ := ih
      refine ⟨?_, ?_, ?_⟩
      · intro j rest hsz hrest
        cases j with
        | null => rfl
        | bool b => cases b <;> rfl
        | num n =>
            by_cases hneg : n < 0
            · have hmap : jsonStr (Json.num n)
                  = '-' :: (digitsBE n.natAbs).map digitChar := by
                show intChars n = _
                rw [intChars, if_pos hneg, natChars]
              rw [hmap, List.cons_append, pval_minus_red2 f]
              rw [pDigits_append (digitsBE n.natAbs) rest (digitsBE_lt _) hrest]
              obtain ⟨d0, ds, hsplit⟩ :=
                List.exists_cons_of_ne_nil (digitsBE_ne_nil n.natAbs)
              rw [hsplit]
              have hval : natOfDigitsBE (d0 :: ds) = n.natAbs := by
                rw [← hsplit, natOfDigitsBE_digitsBE]
              dsimp only
              rw [hval]
              have hneq : -(Int.ofNat n.natAbs) = n := by
                have hcast : Int.ofNat n.natAbs = (n.natAbs : Int) := rfl
                rw [hcast]
                omega
              rw [hneq]
            · obtain ⟨d0, ds, hsplit⟩ :=
                List.exists_cons_of_ne_nil (digitsBE_ne_nil n.toNat)
              have hd0 : d0 < 10 := digitsBE_lt n.toNat d0
                (by rw [hsplit]; exact List.mem_cons_self _ _)
              have hmap : jsonStr (Json.num n)
                  = digitChar d0 :: ds.map digitChar := by
                show intChars n = _
                rw [intChars, if_neg hneg, natChars, hsplit, List.map_cons]
              rw [hmap, List.cons_append, pval_digit_red f d0 hd0]
              have hpd : pDigits (digitChar d0 :: (List.map digitChar ds ++ rest))
                  = (d0 :: ds, rest) := by
                have h2 := pDigits_append (d0 :: ds) rest
                  (by rw [← hsplit]; exact digitsBE_lt _) hrest
                simpa using h2
              rw [hpd]
              dsimp only
              rw [← hsplit, natOfDigitsBE_digitsBE]
              have hneq : Int.ofNat n.toNat = n := by
                have hcast : Int.ofNat n.toNat = (n.toNat : Int) := rfl
                rw [hcast]
                omega
              rw [hneq]
        | str s =>
            have hshape : jsonStr (Json.str s) ++ rest
                = '"' :: (escChars s ++ ('"' :: rest)) := by
              show strLit s ++ rest = _
              simp [strLit, List.append_assoc]
            rw [hshape, pval_quote_red f, pStr_escChars s rest]
            rfl
        | arr xs =>
            cases xs with
            | nil => rfl
            | cons x xs2 =>
                have hshape : jsonStr (Json.arr (x :: xs2)) ++ rest
                    = '[' :: (jsonStr x ++ (jsonArrRest xs2 ++ rest)) := by
                  show ('[' :: (jsonStr x ++ jsonArrRest xs2)) ++ rest = _
                  simp [List.append_assoc]
                rw [hshape, pval_lbrack_red2 f]
                obtain ⟨c0, L0, hx, hne1, -⟩ := jsonStr_head x
                rw [hx, List.cons_append]
                have hsz2 : jsizeL (x :: xs2) ≤ f := by
                  simp only [jsize] at hsz
                  omega
                split
                · rename_i r heq
                  injection heq with hc0 _
                  exact absurd hc0 hne1
                · rw [← List.cons_append, ← hx, ihQ x xs2 rest hsz2 hrest]
                  rfl
        | obj fs =>
            cases fs with
            | nil => rfl
            | cons p fs2 =>
                obtain ⟨k, v⟩ := p
                have hshape : jsonStr (Json.obj ((k, v) :: fs2)) ++ rest
                    = '{' :: ('"' :: (escChars k ++
                        ('"' :: (':' :: (jsonStr v ++ (jsonObjRest fs2 ++ rest)))))) := by
                  show ('{' :: (strLit k ++ ':' :: (jsonStr v ++ jsonObjRest fs2))) ++ rest = _
                  simp [strLit, List.append_assoc]
                have hsz2 : jsizeF ((k, v) :: fs2) ≤ f := by
                  simp only [jsize] at hsz
                  omega
                rw [hshape, pval_lbrace_quote_red f]
                rw [ihR k v fs2 rest hsz2 hrest]
                rfl
      · intro x xs rest hsz hrest
        have hszx : jsize x ≤ f := by
          simp only [jsizeL] at hsz
          omega
        rw [parr_red f, ihP x (jsonArrRest xs ++ rest) hszx (noLeadDigit_arrRest xs rest)]
        cases xs with
        | nil =>
            simp only [jsonArrRest, List.cons_append, List.nil_append]
        | cons y ys =>
            have hszy : jsizeL (y :: ys) ≤ f := by
              have hx := jsize_pos x
              simp only [jsizeL] at hsz ⊢
              omega
            simp only [jsonArrRest, List.cons_append, List.append_assoc]
            rw [ihQ y ys rest hszy hrest]
            rfl
      · intro k v fs rest hsz hrest
        have hszv : jsize v ≤ f := by
          simp only [jsizeF] at hsz
          omega
        rw [pobj_quote_red f, pStr_escChars k
          (':' :: (jsonStr v ++ (jsonObjRest fs ++ rest)))]
        dsimp only
        split
        case _ heq =>
          injection heq with hcol hr2
          subst hr2
          rw [ihP v (jsonObjRest fs ++ rest) hszv (noLeadDigit_objRest fs rest)]
          cases fs with
          | nil =>
              simp only [jsonObjRest, List.cons_append, List.nil_append]
          | cons q fs2 =>
              obtain ⟨k2, v2⟩ := q
              have hszq : jsizeF ((k2, v2) :: fs2) ≤ f := by
                have hv := jsize_pos v
                simp only [jsizeF] at hsz ⊢
                omega
              simp only [jsonObjRest, strLit, List.cons_append, List.append_assoc,
                List.singleton_append, List.nil_append]
              rw [ihR k2 v2 fs2 rest hszq hrest]
              rfl
        case _ hne =>
          exact absurd rfl (hne (jsonStr v ++ (jsonObjRest fs ++ rest)))

/-- Size bound, fuel-indexed form: the size of a value never exceeds the
length of its stringification. -/
theorem jsize_le_aux : ∀ n : Nat,
    (∀ j : Json, jsize j ≤ n → jsize j ≤ (jsonStr j).length) ∧
    (∀ xs : List Json, jsizeL xs ≤ n → jsizeL xs + 1 ≤ (jsonArrRest xs).length) ∧
    (∀ fs : List (Str × Json), jsizeF fs ≤ n → jsizeF fs + 1 ≤ (jsonObjRest fs).length) := by
  intro n
  induction n with
  | zero =>
      refine ⟨?_, ?_, ?_⟩
      · intro j h
        have := jsize_pos j
        omega
      · intro xs h
        cases xs with
        | nil => simp [jsonArrRest, jsizeL]
        | cons x t =>
            have := jsize_pos x
            simp only [jsizeL] at h
            omega
      · intro fs h
        cases fs with
        | nil => simp [jsonObjRest, jsizeF]
        | cons p t =>
            obtain ⟨k, v⟩ := p
            have := jsize_pos v
            simp only [jsizeF] at h
            omega
  | succ n ih =>
      obtain ⟨ihP, ihQ, ihR⟩ := ih
      refine ⟨?_, ?_, ?_⟩
      · intro j h
        cases j with
        | null => simp [jsize, jsonStr]
        | bool b => cases b <;> simp [jsize, jsonStr]
        | num m =>
            obtain ⟨c, L2, hs, -, -⟩ := jsonStr_head (Json.num m)
            rw [hs]
            simp [jsize]
        | str s =>
            obtain ⟨c, L2, hs, -, -⟩ := jsonStr_head (Json.str s)
            rw [hs]
            simp [jsize]
        | arr xs =>
            have hx : jsizeL xs ≤ n := by
              simp only [jsize] at h
              omega
            have h2 := ihQ xs hx
            cases xs with
            | nil => simp [jsize, jsizeL, jsonStr]
            | cons x t =>
                simp only [jsizeL, jsonArrRest, List.length_cons, List.length_append] at h2
                simp only [jsize, jsizeL, jsonStr, List.length_cons, List.length_append]
                omega
        | obj fs =>
            have hx : jsizeF fs ≤ n := by
              simp only [jsize] at h
              omega
            have h2 := ihR fs hx
            cases fs with
            | nil => simp [jsize, jsizeF, jsonStr]
            | cons p t =>
                obtain ⟨k, v⟩ := p
                simp only [jsizeF, jsonObjRest, List.length_cons, List.length_append] at h2
                simp only [jsize, jsizeF, jsonStr, List.length_cons, List.length_append]
                omega
      · intro xs h
        cases xs with
        | nil => simp [jsonArrRest, jsizeL]
        | cons x t =>
            have hjx : jsize x ≤ n := by
              simp only [jsizeL] at h
              omega
            have hxt : jsizeL t ≤ n := by
              have := jsize_pos x
              simp only [jsizeL] at h
              omega
            have h1 := ihP x hjx
            have h2 := ihQ t hxt
            simp only [jsizeL, jsonArrRest, List.length_cons, List.length_append]
            omega
      · intro fs h
        cases fs with
        | nil => simp [jsonObjRest, jsizeF]
        | cons p t =>
            obtain ⟨k, v⟩ := p
            have hjv : jsize v ≤ n := by
              simp only [jsizeF] at h
              omega
            have hvt : jsizeF t ≤ n := by
              have := jsize_pos v
              simp only [jsizeF] at h
              omega
            have h1 := ihP v hjv
            have h2 := ihR t hvt
            simp only [jsizeF, jsonObjRest, List.length_cons, List.length_append]
            omega

/-- The size of a value never exceeds the length of its
stringification, so the fuel jsonParse supplies always suffices. -/
theorem jsize_le (j : Json) : jsize j ≤ (jsonStr j).length :=
  (jsize_le_aux (jsize j)).1 j le_rfl

/-- JSON.parse inverts JSON.stringify on the modelled values. -/
theorem jsonParse_jsonStr (j : Json) : jsonParse (jsonStr j) = some j := by
  have h := (pVal_correct (2 * (jsonStr j).length + 2)).1 j []
    (le_trans (jsize_le j) (by omega)) noLeadDigit_nil
  rw [List.append_nil] at h
  unfold jsonParse
  rw [h]

/-- Reading the context cache immediately after writing an object-valued
map returns that map unchanged. -/
theorem readCtxCache_writeCtxCache (st : List (String × Str)) (cid : String)
    (fs : List (Str × Json)) :
    readCtxCache (writeCtxCache st cid (Json.obj fs)) cid = Json.obj fs := by
  unfold readCtxCache writeCtxCache
  rw [recordGet_recordSet_self]
  have hne : (jsonStr (Json.obj fs)).isEmpty = false := by
    obtain ⟨c, L2, hs, -, -⟩ := jsonStr_head (Json.obj fs)
    rw [hs]
    rfl
  simp only [hne, Bool.false_eq_true, if_false, jsonParse_jsonStr]
  cases fs <;> rfl

/-- readCtxCache never throws and always yields a value passing the
object guard: the empty object on a missing, empty, unparsable or
guard-failing read, and the parsed value (object or array) otherwise. -/
theorem readCtxCache_objectTruthy (st : List (String × Str)) (cid : String) :
    jsTypeofObjectTruthy (readCtxCache st cid) = true := by
  unfold readCtxCache
  split
  · rfl
  · split
    · rfl
    · split
      · rfl
      · split
        case _ hg => exact hg
        case _ => rfl

/-- C9 (amended): writing a map and reading it back round-trips;
readCtxCache always returns a guard-passing value (never an exception);
mergeCtxCache returns the two-spread merge of the stored map with the
additions, persists it (a subsequent read returns it), and the merged
map agrees with the additions on every added key (keys distinct) and
with the previously stored map's spread fields on every other key. The
original claim's clause that a corrupt read yields the empty map is
weakened: the guard also admits parsed non-object values such as
arrays. -/
theorem claim_C9_amended (st : List (String × Str)) (cid : String)
    (fs addFs : List (Str × Json))
    (hnd : (addFs.map Prod.fst).Nodup) :
    readCtxCache (writeCtxCache st cid (Json.obj fs)) cid = Json.obj fs
    ∧ jsTypeofObjectTruthy (readCtxCache st cid) = true
    ∧ (mergeCtxCache st cid (Json.obj addFs)).1
        = Json.obj (mergeFields (jsonFieldsOf (readCtxCache st cid)) addFs)
    ∧ readCtxCache (mergeCtxCache st cid (Json.obj addFs)).2 cid
        = (mergeCtxCache st cid (Json.obj addFs)).1
    ∧ (∀ kv ∈ addFs,
        jsonObjGet (mergeCtxCache st cid (Json.obj addFs)).1 kv.1 = some kv.2)
    ∧ (∀ k, k ∉ addFs.map Prod.fst →
        jsonObjGet (mergeCtxCache st cid (Json.obj addFs)).1 k
          = recordGet (jsonFieldsOf (readCtxCache st cid)) k) := by
  refine ⟨readCtxCache_writeCtxCache st cid fs, readCtxCache_objectTruthy st cid,
    rfl, ?_, ?_, ?_⟩
  · exact readCtxCache_writeCtxCache st cid
      (mergeFields (jsonFieldsOf (readCtxCache st cid)) addFs)
  · intro kv hkv
    show recordGet (mergeFields (jsonFieldsOf (readCtxCache st cid)) addFs) kv.1
      = some kv.2
    exact recordGet_foldl_mem Prod.fst Prod.snd addFs
      (jsonFieldsOf (readCtxCache st cid)) hnd kv hkv
  · intro k hk
    show recordGet (mergeFields (jsonFieldsOf (readCtxCache st cid)) addFs) k
      = recordGet (jsonFieldsOf (readCtxCache st cid)) k
    exact recordGet_foldl_notmem Prod.fst Prod.snd addFs
      (jsonFieldsOf (readCtxCache st cid)) k hk

/-- C9 counterexample: a stored JSON array is a corrupt cache value for
a map from message ids to context lists, yet readCtxCache returns it
as is rather than the empty map, because a JavaScript array satisfies
the typeof-object-and-truthy guard. -/
theorem claim_C9_counterexample :
    readCtxCache exCorruptStore "c1" = Json.arr [Json.num 0]
    ∧ readCtxCache exCorruptStore "c1" ≠ Json.obj [] := by
  refine ⟨rfl, ?_⟩
  intro h
  exact Json.noConfusion h

/-- C9 witness: the amended theorem at a concrete store, conversation
and one-key map. -/
theorem claim_C9_witness :
    ((([("m1".data, Json.arr [])] : List (Str × Json)).map Prod.fst).Nodup)
    ∧ readCtxCache (writeCtxCache [] "c1" (Json.obj [("m1".data, Json.arr [])])) "c1"
        = Json.obj [("m1".data, Json.arr [])] :=
  ⟨by simp, (claim_C9_amended [] "c1" [("m1".data, Json.arr [])]
    [("m1".data, Json.arr [])] (by simp)).1⟩
